import Mathlib

set_option maxHeartbeats 2000000

/-!
Shallow embedding of the `starstruct` Go package: bidirectional conversion
between Go structs and Starlark string dictionaries.

Conventions of the embedding:
* Starlark values (`SVal`) form a tagged union mirroring the kinds the
  package consumes and produces: None, Bool, Bytes, String, Int (arbitrary
  precision), Float, Dict, List, Tuple, Set.  Dicts are insertion-ordered
  association lists with string keys (the package only reads and writes
  string keys); Sets are insertion-ordered duplicate-free lists.
* Go strings and byte-strings are both carried by Lean `String`; a `[]byte`
  value is a Go slice whose elements are `uint8` values, converted to and
  from its byte-string via `strToBytes`/`bytesToStr`.
* Go `float64` is carried by `Int`: the claims under verification only
  exercise integer-valued floats, for which every operation the code
  performs (encode `float64 → starlark.Float`, decode `Float → float64`)
  is the identity transport; `math.Modf` of such a value has zero
  fractional part and NaN/Inf do not arise.
* Go maps are insertion-ordered association lists (Go's iteration order is
  unspecified; the model fixes one order).
* Machine integers are `Int`/`Nat` with explicit width bounds checked where
  the code checks them (`starlark.AsInt`).
* `chan` stands in for the Go kinds that reach the encoder's default
  ("unsupported Go type") branch.
-/

/-- Signed Go integer widths (`int` is 64-bit, as on the package's target). -/
inductive IntW where
  | i | i8 | i16 | i32 | i64
deriving DecidableEq, Repr

/-- Unsigned Go integer widths (`uint` and `uintptr` are 64-bit). -/
inductive UintW where
  | u | u8 | u16 | u32 | u64 | uptr
deriving DecidableEq, Repr

def IntW.bits : IntW → Nat
  | .i => 64 | .i8 => 8 | .i16 => 16 | .i32 => 32 | .i64 => 64

def UintW.bits : UintW → Nat
  | .u => 64 | .u8 => 8 | .u16 => 16 | .u32 => 32 | .u64 => 64 | .uptr => 64

def IntW.minVal (w : IntW) : Int := -(2 ^ (w.bits - 1))

def IntW.maxVal (w : IntW) : Int := 2 ^ (w.bits - 1) - 1

def UintW.maxVal (w : UintW) : Nat := 2 ^ w.bits - 1

/-- Starlark values, as consumed and produced by the package. -/
inductive SVal where
  | none
  | bool (b : Bool)
  | bytes (s : String)
  | str (s : String)
  | int (i : Int)
  | float (f : Int)
  | dict (entries : List (String × SVal))
  | list (xs : List SVal)
  | tuple (xs : List SVal)
  | set (xs : List SVal)

mutual
/-- Go types, restricted to the shapes the package dispatches on. -/
inductive GoTyp where
  | bool
  | int (w : IntW)
  | uint (w : UintW)
  | float64
  | str
  | slice (elem : GoTyp)
  | mapT (key : GoTyp) (val : GoTyp)
  | strct (fields : List FieldT)
  | ptr (elem : GoTyp)
  | starVal
  | chan

/-- A Go struct field: declared name, raw `starlark` tag value, export
visibility, whether it is an embedded (anonymous) field, and its type. -/
inductive FieldT where
  | mk (name : String) (tag : String) (exported : Bool) (anonymous : Bool) (typ : GoTyp)
end

def FieldT.name : FieldT → String | .mk n _ _ _ _ => n
def FieldT.tag : FieldT → String | .mk _ t _ _ _ => t
def FieldT.exported : FieldT → Bool | .mk _ _ e _ _ => e
def FieldT.anonymous : FieldT → Bool | .mk _ _ _ a _ => a
def FieldT.typ : FieldT → GoTyp | .mk _ _ _ _ t => t

/-- Go values.  Self-describing up to the ambiguities reflect resolves with
the type (which the embedding passes alongside).  `slice`/`mapV` track Go's
nil-versus-empty distinction; `ptr`/`star` use `Option` for nil. -/
inductive GoVal where
  | bool (b : Bool)
  | int (w : IntW) (v : Int)
  | uint (w : UintW) (v : Nat)
  | float64 (v : Int)
  | str (s : String)
  | slice (isNil : Bool) (elems : List GoVal)
  | mapV (isNil : Bool) (entries : List (GoVal × GoVal))
  | strct (fields : List GoVal)
  | ptr (v : Option GoVal)
  | star (v : Option SVal)
  | chan

mutual
/-- Boolean (syntactic) equality on Starlark values, modelling starlark's
value equality on the hashable fragment the package exchanges. -/
def SVal.beq : SVal → SVal → Bool
  | .none, .none => true
  | .bool a, .bool b => a == b
  | .bytes a, .bytes b => a == b
  | .str a, .str b => a == b
  | .int a, .int b => a == b
  | .float a, .float b => a == b
  | .dict a, .dict b => SVal.beqEntries a b
  | .list a, .list b => SVal.beqList a b
  | .tuple a, .tuple b => SVal.beqList a b
  | .set a, .set b => SVal.beqList a b
  | _, _ => false

/-- Elementwise `SVal.beq` on lists. -/
def SVal.beqList : List SVal → List SVal → Bool
  | [], [] => true
  | x :: xs, y :: ys => SVal.beq x y && SVal.beqList xs ys
  | _, _ => false

/-- Entrywise `SVal.beq` on dictionary entries. -/
def SVal.beqEntries : List (String × SVal) → List (String × SVal) → Bool
  | [], [] => true
  | (k1, v1) :: xs, (k2, v2) :: ys => k1 == k2 && SVal.beq v1 v2 && SVal.beqEntries xs ys
  | _, _ => false
end

mutual
/-- Boolean (syntactic) equality on Go values, modelling Go `==` on the
comparable fragment used for map keys. -/
def GoVal.beq : GoVal → GoVal → Bool
  | .bool a, .bool b => a == b
  | .int w1 a, .int w2 b => w1 == w2 && a == b
  | .uint w1 a, .uint w2 b => w1 == w2 && a == b
  | .float64 a, .float64 b => a == b
  | .str a, .str b => a == b
  | .slice n1 a, .slice n2 b => n1 == n2 && GoVal.beqList a b
  | .mapV n1 a, .mapV n2 b => n1 == n2 && GoVal.beqPairs a b
  | .strct a, .strct b => GoVal.beqList a b
  | .ptr (some a), .ptr (some b) => GoVal.beq a b
  | .ptr Option.none, .ptr Option.none => true
  | .star (some a), .star (some b) => SVal.beq a b
  | .star Option.none, .star Option.none => true
  | .chan, .chan => true
  | _, _ => false

/-- Elementwise `GoVal.beq` on lists. -/
def GoVal.beqList : List GoVal → List GoVal → Bool
  | [], [] => true
  | x :: xs, y :: ys => GoVal.beq x y && GoVal.beqList xs ys
  | _, _ => false

/-- Pairwise `GoVal.beq` on map entries. -/
def GoVal.beqPairs : List (GoVal × GoVal) → List (GoVal × GoVal) → Bool
  | [], [] => true
  | (k1, v1) :: xs, (k2, v2) :: ys => GoVal.beq k1 k2 && GoVal.beq v1 v2 && GoVal.beqPairs xs ys
  | _, _ => false
end

/-- `strings.Cut(s, ",")` over the character list: the part before the
first comma, and the rest. -/
def cutCommaList : List Char → List Char × List Char
  | [] => ([], [])
  | c :: rest =>
    if c = ',' then ([], rest)
    else ((cutCommaList rest).1.cons c, (cutCommaList rest).2)

/-- `strings.Cut(tag, ",")`: the part before the first comma and the rest. -/
def cutComma (s : String) : String × String :=
  (⟨(cutCommaList s.data).1⟩, ⟨(cutCommaList s.data).2⟩)

/-- `strings.Split(s, ",")` over the character list. -/
def splitCommaAll : List Char → List (List Char)
  | [] => [[]]
  | c :: rest =>
    if c = ',' then [] :: splitCommaAll rest
    else
      match splitCommaAll rest with
      | [] => [[c]]
      | p :: ps => (c :: p) :: ps

/-- `strings.Split(rawOpts, ",")` as used on the non-empty remainder. -/
def splitOpts (rawOpts : String) : List String :=
  if rawOpts = "" then [] else (splitCommaAll rawOpts.data).map fun cs => ⟨cs⟩

/-- ASCII lowercasing, the fragment of `strings.ToLower` the field names
under consideration exercise. -/
def toLowerAscii (s : String) : String :=
  ⟨s.data.map fun c =>
    if 65 ≤ c.toNat && c.toNat ≤ 90 then Char.ofNat (c.toNat + 32) else c⟩

/-- Path extension for a struct field (`path += "." + name` when both are
non-empty). -/
def joinPath (path name : String) : String :=
  if name = "" then path
  else if path = "" then name else path ++ "." ++ name

/-- Path extension for an indexed element (`fmt.Sprintf("%s[%d]", path, i)`). -/
def indexPath (path : String) (i : Nat) : String :=
  path ++ "[" ++ toString i ++ "]"

/-- Association-list read, modelling `stringDictValue.Get` and
`starlark.Dict` lookup with a string key. -/
def dictGet : List (String × SVal) → String → Option SVal
  | [], _ => Option.none
  | (k, v) :: rest, key => if k = key then some v else dictGet rest key

/-- Association-list write, modelling `SetKey`: update in place if the key
exists, otherwise append (starlark dictionaries are insertion-ordered). -/
def dictSet : List (String × SVal) → String → SVal → List (String × SVal)
  | [], key, v => [(key, v)]
  | (k, w) :: rest, key, v =>
    if k = key then (k, v) :: rest else (k, w) :: dictSet rest key v

/-- Keys of a dictionary, in order. -/
def dictKeys (d : List (String × SVal)) : List String := d.map Prod.fst

/-- Go map read (`map[k]`), over the association-list model. -/
def goMapGet : List (GoVal × GoVal) → GoVal → Option GoVal
  | [], _ => Option.none
  | (k, v) :: rest, key => if GoVal.beq k key then some v else goMapGet rest key

/-- Go map write (`reflect.Value.SetMapIndex`): update in place or append. -/
def goMapSet : List (GoVal × GoVal) → GoVal → GoVal → List (GoVal × GoVal)
  | [], key, v => [(key, v)]
  | (k, w) :: rest, key, v =>
    if GoVal.beq k key then (k, v) :: rest else (k, w) :: goMapSet rest key v

/-- `isByteSliceType`: a slice whose element kind is `uint8`. -/
def isByteSliceType : GoTyp → Bool
  | .slice (.uint .u8) => true
  | _ => false

/-- `isSetMapType`: a map whose element (value) kind is `bool`. -/
def isSetMapType : GoTyp → Bool
  | .mapT _ .bool => true
  | _ => false

/-- `isStructPtrType`: a pointer whose element kind is a struct. -/
def isStructPtrType : GoTyp → Bool
  | .ptr (.strct _) => true
  | _ => false

/-- `isStructOrPtrType`: a struct, or a pointer to a struct. -/
def isStructOrPtrType : GoTyp → Bool
  | .strct _ => true
  | t => isStructPtrType t

/-- `isTOrPtrTType(t, starlarkValueType)`: the `starlark.Value` interface
type or a single pointer to it. -/
def isStarOrPtrStar : GoTyp → Bool
  | .starVal => true
  | .ptr .starVal => true
  | _ => false

mutual
/-- The zero value of a Go type (`reflect.Zero`). -/
def zeroVal : GoTyp → GoVal
  | .bool => .bool false
  | .int w => .int w 0
  | .uint w => .uint w 0
  | .float64 => .float64 0
  | .str => .str ""
  | .slice _ => .slice true []
  | .mapT _ _ => .mapV true []
  | .strct fs => .strct (zeroFields fs)
  | .ptr _ => .ptr Option.none
  | .starVal => .star Option.none
  | .chan => .chan

/-- Zero values of a struct's fields, in declaration order. -/
def zeroFields : List FieldT → List GoVal
  | [] => []
  | .mk _ _ _ _ t :: fs => zeroVal t :: zeroFields fs
end

/-- Bytes of a Go byte-string, as `uint8` slice elements (`[]byte(s)`). -/
def strToBytes (s : String) : List GoVal :=
  s.data.map fun c => GoVal.uint .u8 c.toNat

/-- Byte-string of `uint8` slice elements (`goVal.Bytes()`); non-`uint8`
elements cannot arise on a well-typed byte slice. -/
def bytesToStr (elems : List GoVal) : String :=
  ⟨elems.map fun e =>
    match e with
    | GoVal.uint _ v => Char.ofNat v
    | _ => Char.ofNat 0⟩

/-- Shallow rendering of a Go value for `%v` path interpolation on map
keys; only scalars are ever used as set-map keys in the claims. -/
def goValShow : GoVal → String
  | .bool b => if b then "true" else "false"
  | .int _ v => toString v
  | .uint _ v => toString v
  | .float64 v => toString v
  | .str s => s
  | _ => "?"

/-- Per-field option list (`tagOpt`): the current (first) option. -/
def tagCurrent : List String → String
  | [] => ""
  | o :: _ => o

/-- `tagOpt.shift`: drop the current option. -/
def tagShift : List String → List String
  | [] => []
  | _ :: rest => rest

/-! ## Decoder (`FromStarlark`, decode.go) -/

/-- Decoder errors.  The embedding distinguishes the classes the package's
error taxonomy distinguishes: type mismatches (with the starlark kind label
the message names), out-of-range numeric failures, and non-exact numeric
failures. -/
inductive DErr where
  | cannotAssign (label : String) (path : String)
  | outOfRange (path : String)
  | notExact (path : String)
deriving DecidableEq, Repr

/-- Kind test for `reflect.Bool`. -/
def GoTyp.isBool : GoTyp → Bool
  | .bool => true
  | _ => false

/-- Kind test for `reflect.String`. -/
def GoTyp.isStr : GoTyp → Bool
  | .str => true
  | _ => false

/-- Kinds accepted by `setFieldNone`: pointer, slice or map. -/
def kindPtrSliceMap : GoTyp → Bool
  | .ptr _ => true
  | .slice _ => true
  | .mapT _ _ => true
  | _ => false

/-- Numeric destination kinds (`reflect.Int ≤ kind ≤ reflect.Float64`). -/
def numericKind : GoTyp → Bool
  | .int _ => true
  | .uint _ => true
  | .float64 => true
  | _ => false

/-- Round an integer to the nearest (ties-to-even) 53-bit significand
value: the value `float64` assigns to it.  Inputs beyond the finite
`float64` range do not arise in the verified claims. -/
def roundNat53 (n : Nat) : Nat :=
  if n ≤ 2 ^ 53 then n
  else
    let e := n.log2 - 52
    let q := n / 2 ^ e
    let r := n % 2 ^ e
    let half := 2 ^ (e - 1)
    let q1 := if half < r ∨ (r = half ∧ q % 2 = 1) then q + 1 else q
    q1 * 2 ^ e

/-- `starlark.AsFloat` on an `Int`: conversion of an arbitrary-precision
integer to `float64` (round to nearest, ties to even). -/
def roundToF64 (i : Int) : Int :=
  if 0 ≤ i then (roundNat53 i.toNat : Nat) else -(roundNat53 (-i).toNat : Nat)

/-- `setFieldNone`: the destination must be a pointer, slice or map; the
field is set to its zero value. -/
def setFieldNone (path : String) (t : GoTyp) : Except DErr GoVal :=
  if kindPtrSliceMap t then .ok (zeroVal t)
  else .error (.cannotAssign "None" path)

/-- `setFieldStarlark`: destination is `starlark.Value` or a single pointer
to it; the starlark value is assigned as-is (allocating the pointer). -/
def setFieldStarlark (path : String) (t : GoTyp) (sv : SVal) : Except DErr GoVal :=
  match t with
  | .ptr .starVal => .ok (.ptr (some (.star (some sv))))
  | .ptr _ => .error (.cannotAssign "starlark.Value" path)
  | .starVal => .ok (.star (some sv))
  | _ => .error (.cannotAssign "starlark.Value" path)

/-- `setFieldBool`, with the single level of indirection. -/
def setFieldBool (path : String) (t : GoTyp) (b : Bool) : Except DErr GoVal :=
  match t with
  | .ptr te =>
    if te.isBool then .ok (.ptr (some (.bool b)))
    else .error (.cannotAssign "Bool" path)
  | .bool => .ok (.bool b)
  | _ => .error (.cannotAssign "Bool" path)

/-- Core of `setFieldInt` after the indirection is resolved: float
destinations take `starlark.AsFloat` then `SetFloat` (no exactness check);
integer destinations go through `starlark.AsInt`, which fails when the
value does not fit the destination width. -/
def setFieldIntCore (path : String) (t : GoTyp) (i : Int) : Except DErr GoVal :=
  match t with
  | .float64 => .ok (.float64 (roundToF64 i))
  | .int w =>
    if w.minVal ≤ i ∧ i ≤ w.maxVal then .ok (.int w i)
    else .error (.outOfRange path)
  | .uint w =>
    if 0 ≤ i ∧ i ≤ (w.maxVal : Int) then .ok (.uint w i.toNat)
    else .error (.outOfRange path)
  | _ => .error (.cannotAssign "Int" path)

/-- `setFieldInt`: numeric destinations only, through one level of
indirection. -/
def setFieldInt (path : String) (t : GoTyp) (i : Int) : Except DErr GoVal :=
  match t with
  | .ptr te =>
    if numericKind te then (setFieldIntCore path te i).map fun x => .ptr (some x)
    else .error (.cannotAssign "Int" path)
  | _ =>
    if numericKind t then setFieldIntCore path t i
    else .error (.cannotAssign "Int" path)

/-- Core of `setFieldFloat` on the integer-valued `float64` carrier: the
fractional part is zero and NaN/Inf do not arise, so the
"cannot be exactly represented" test never fires and the per-width
round-trip comparison reduces to the width's range check. -/
def setFieldFloatCore (path : String) (t : GoTyp) (f : Int) : Except DErr GoVal :=
  match t with
  | .float64 => .ok (.float64 f)
  | .int w =>
    if w.minVal ≤ f ∧ f ≤ w.maxVal then .ok (.int w f)
    else .error (.outOfRange path)
  | .uint w =>
    if f < 0 then .error (.outOfRange path)
    else if f ≤ (w.maxVal : Int) then .ok (.uint w f.toNat)
    else .error (.outOfRange path)
  | _ => .error (.cannotAssign "Float" path)

/-- `setFieldFloat`: numeric destinations only, through one level of
indirection. -/
def setFieldFloat (path : String) (t : GoTyp) (f : Int) : Except DErr GoVal :=
  match t with
  | .ptr te =>
    if numericKind te then (setFieldFloatCore path te f).map fun x => .ptr (some x)
    else .error (.cannotAssign "Float" path)
  | _ =>
    if numericKind t then setFieldFloatCore path t f
    else .error (.cannotAssign "Float" path)

/-- `setFieldBytesOrString`: text and byte-sequence destinations accept
both `Bytes` and `String` sources, through one level of indirection. -/
def setFieldBytesOrString (path label : String) (t : GoTyp) (s : String) : Except DErr GoVal :=
  match t with
  | .ptr te =>
    if isByteSliceType te then .ok (.ptr (some (.slice false (strToBytes s))))
    else if te.isStr then .ok (.ptr (some (.str s)))
    else .error (.cannotAssign label path)
  | _ =>
    if isByteSliceType t then .ok (.slice false (strToBytes s))
    else if t.isStr then .ok (.str s)
    else .error (.cannotAssign label path)

/-- Size bound used for termination: a dictionary lookup returns a value
structurally smaller than the dictionary. -/
theorem dictGet_sizeOf {d : List (String × SVal)} {k : String} {v : SVal}
    (h : dictGet d k = some v) : sizeOf v < sizeOf d := by
  induction d with
  | nil => simp [dictGet] at h
  | cons hd tl ih =>
    obtain ⟨k1, v1⟩ := hd
    rw [dictGet] at h
    by_cases hk : k1 = k
    · simp [hk] at h
      subst h
      simp
      omega
    · simp [hk] at h
      have := ih h
      simp
      omega

mutual
/-- `walkStructDecode`: walk the struct's fields in declaration order,
decoding matching dictionary values into them.  Returns the updated field
values, whether any field was set, and the first error (the walk stops at
the first failing field, leaving later fields untouched). -/
def walkStructDecode (path : String) (flds : List FieldT) (vals : List GoVal)
    (dict : List (String × SVal)) : List GoVal × Bool × Option DErr :=
  match flds, vals with
  | [], vs => (vs, false, Option.none)
  | _ :: _, [] => ([], false, Option.none)
  | f :: fs, v :: vs =>
    let r := decodeField path f v dict
    match r.2.2 with
    | some e => (r.1 :: vs, r.2.1, some e)
    | Option.none =>
      let rest := walkStructDecode path fs vs dict
      (r.1 :: rest.1, r.2.1 || rest.2.1, rest.2.2)
termination_by (sizeOf dict, sizeOf flds, 2)

/-- One iteration of the `walkStructDecode` loop: resolve the field's
name from its tag, skip ignored and unexported fields, walk unnamed
embedded structs against the same dictionary, and otherwise look the name
up (falling back to all-lowercase for tag-less fields) and decode the
match.  Returns the field's new value, its `didSet` contribution, and its
error, mirroring how the loop updates `didSet` and returns on error. -/
def decodeField (path : String) (f : FieldT) (v : GoVal)
    (dict : List (String × SVal)) : GoVal × Bool × Option DErr :=
  match f with
  | .mk fname ftag fexp fanon ftyp =>
    let nm := (cutComma ftag).1
    if ¬fexp ∨ nm = "-" then (v, false, Option.none)
    else
      let path1 := joinPath path fname
      if nm = "" ∧ fanon then
        let r := setFieldDict path1 ftyp v dict
        (r.1, if r.2.2.isSome then false else r.2.1, r.2.2)
      else
        let nm1 := if nm = "" then fname else nm
        let tryLower := nm = ""
        match h1 : dictGet dict nm1 with
        | some sv =>
          match fromStarlarkValue path1 sv ftyp v with
          | .ok v1 => (v1, true, Option.none)
          | .error e => (v, true, some e)
        | Option.none =>
          if tryLower then
            match h2 : dictGet dict (toLowerAscii nm1) with
            | some sv =>
              match fromStarlarkValue path1 sv ftyp v with
              | .ok v1 => (v1, true, Option.none)
              | .error e => (v, true, some e)
            | Option.none => (v, false, Option.none)
          else (v, false, Option.none)
termination_by (sizeOf dict, sizeOf f, 1)
decreasing_by
  · decreasing_tactic
  · simp_wf
    exact Prod.Lex.left _ _ (dictGet_sizeOf h1)
  · simp_wf
    exact Prod.Lex.left _ _ (dictGet_sizeOf h2)

/-- `fromStarlarkValue`: if the destination is the `starlark.Value`
interface (or a pointer to it) assign the value as-is; otherwise dispatch
on the starlark value's concrete kind. -/
def fromStarlarkValue (path : String) (sv : SVal) (t : GoTyp) (v : GoVal) :
    Except DErr GoVal :=
  if isStarOrPtrStar t then setFieldStarlark path t sv
  else
    match sv with
    | .none => setFieldNone path t
    | .bool b => setFieldBool path t b
    | .bytes s => setFieldBytesOrString path "Bytes" t s
    | .str s => setFieldBytesOrString path "String" t s
    | .int i => setFieldInt path t i
    | .float f => setFieldFloat path t f
    | .dict entries =>
      let r := setFieldDict path t v entries
      match r.2.2 with
      | Option.none => .ok r.1
      | some e => .error e
    | .list xs => setFieldIterator path "List" t v xs
    | .tuple xs => setFieldIterator path "Tuple" t v xs
    | .set xs => setFieldSet path t v xs
termination_by (sizeOf sv, sizeOf t, 3)

/-- `setFieldDict`: the destination must be a struct or a pointer to one;
walk it against the dictionary.  A nil pointer destination is allocated
but only attached if at least one inner field was set. -/
def setFieldDict (path : String) (t : GoTyp) (v : GoVal)
    (dict : List (String × SVal)) : GoVal × Bool × Option DErr :=
  match t with
  | .ptr (.strct fs) =>
    let inner := match v with
      | .ptr (some iv) => iv
      | _ => zeroVal (.strct fs)
    match inner with
    | .strct ivs =>
      let r := walkStructDecode path fs ivs dict
      if r.2.1 then (.ptr (some (.strct r.1)), r.2.1, r.2.2)
      else (v, r.2.1, r.2.2)
    | _ => (v, false, some (.cannotAssign "Dict" path))
  | .strct fs =>
    match v with
    | .strct vs =>
      let r := walkStructDecode path fs vs dict
      (.strct r.1, r.2.1, r.2.2)
    | _ => (v, false, some (.cannotAssign "Dict" path))
  | _ => (v, false, some (.cannotAssign "Dict" path))
termination_by (sizeOf dict, sizeOf t, 0)

/-- `setFieldIterator` (List/Tuple/Set-into-slice): the destination must
be a slice or a pointer to one; the contents are replaced by the decoded
elements (an empty source yields a fresh empty slice; capacity reuse does
not affect the resulting value). -/
def setFieldIterator (path label : String) (t : GoTyp) (v : GoVal)
    (xs : List SVal) : Except DErr GoVal :=
  match t with
  | .ptr (.slice et) =>
    if xs.length = 0 then .ok (.ptr (some (.slice false [])))
    else
      match decodeElems path 0 et xs with
      | .ok es => .ok (.ptr (some (.slice false es)))
      | .error e => .error e
  | .ptr _ => .error (.cannotAssign label path)
  | .slice et =>
    if xs.length = 0 then .ok (.slice false [])
    else
      match decodeElems path 0 et xs with
      | .ok es => .ok (.slice false es)
      | .error e => .error e
  | _ => .error (.cannotAssign label path)
termination_by (sizeOf xs, sizeOf t, 1)

/-- Element loop of `setFieldIterator`: each element decodes into a fresh
zero value of the element type, at an indexed path. -/
def decodeElems (path : String) (i : Nat) (et : GoTyp) (xs : List SVal) :
    Except DErr (List GoVal) :=
  match xs with
  | [] => .ok []
  | x :: rest =>
    match fromStarlarkValue (indexPath path i) x et (zeroVal et) with
    | .ok e =>
      match decodeElems path (i + 1) et rest with
      | .ok es => .ok (e :: es)
      | .error err => .error err
    | .error err => .error err
termination_by (sizeOf xs, sizeOf et, 0)

/-- Existing entries of a possibly-nil map value: a nil map is freshly
allocated (`MakeMapWithSize`), so it contributes no entries. -/
def mapEntriesOf : GoVal → List (GoVal × GoVal)
  | .mapV false es => es
  | _ => []

/-- Existing entries behind a possibly-nil pointer to a possibly-nil map:
a nil pointer is allocated to a nil map, which is then allocated fresh. -/
def ptrMapEntriesOf : GoVal → List (GoVal × GoVal)
  | .ptr (some v) => mapEntriesOf v
  | _ => []

/-- `setFieldSet`: slice-shaped destinations decode like List/Tuple;
otherwise the destination must be a Bool-valued map (through one level of
indirection), allocated only if nil, into which each member is stored
with value `true`. -/
def setFieldSet (path : String) (t : GoTyp) (v : GoVal) (xs : List SVal) :
    Except DErr GoVal :=
  match t with
  | .slice et => setFieldIterator path "Set" (.slice et) v xs
  | .ptr (.slice et) => setFieldIterator path "Set" (.ptr (.slice et)) v xs
  | .ptr (.mapT kt .bool) =>
    match decodeSetMembers path 0 kt xs (ptrMapEntriesOf v) with
    | .ok es => .ok (.ptr (some (.mapV false es)))
    | .error e => .error e
  | .mapT kt .bool =>
    match decodeSetMembers path 0 kt xs (mapEntriesOf v) with
    | .ok es => .ok (.mapV false es)
    | .error e => .error e
  | _ => .error (.cannotAssign "Set" path)
termination_by (sizeOf xs, sizeOf t, 2)

/-- Member loop of `setFieldSet` into a map: each member decodes into a
fresh zero value of the key type and is stored with value `true`
(`SetMapIndex`). -/
def decodeSetMembers (path : String) (i : Nat) (kt : GoTyp) (xs : List SVal)
    (entries : List (GoVal × GoVal)) : Except DErr (List (GoVal × GoVal)) :=
  match xs with
  | [] => .ok entries
  | x :: rest =>
    match fromStarlarkValue (indexPath path i) x kt (zeroVal kt) with
    | .ok k => decodeSetMembers path (i + 1) kt rest (goMapSet entries k (.bool true))
    | .error err => .error err
termination_by (sizeOf xs, sizeOf kt, 0)
end

/-- `FromStarlark` after its precondition checks: run the walk and return
the updated struct fields and the error, if any. -/
def FromStarlark (flds : List FieldT) (vals : List GoVal)
    (sdict : List (String × SVal)) : List GoVal × Option DErr :=
  let r := walkStructDecode "" flds vals sdict
  (r.1, r.2.2)

/-! ## Encoder (`ToStarlark`, encode.go) -/

/-- Encoder errors: unsupported Go type at a path, a non-struct embedded
field, a failed Set insertion, or the reflect panic Go raises when the
walk is entered with a pointer value (`NumField` on a non-struct). -/
inductive EncErr where
  | unsupported (path : String)
  | embeddedNotStruct (path : String)
  | insertFailed (path : String)
  | reflectPanic (path : String)
deriving DecidableEq, Repr

/-- Kind test for `reflect.Pointer`. -/
def GoTyp.isPtr : GoTyp → Bool
  | .ptr _ => true
  | _ => false

mutual
/-- Starlark hashability: dictionaries, lists and sets are unhashable;
tuples are hashable when their components are; scalars are hashable. -/
def SVal.hashable : SVal → Bool
  | .dict _ => false
  | .list _ => false
  | .set _ => false
  | .tuple xs => SVal.hashableList xs
  | _ => true

/-- Hashability of a list of values. -/
def SVal.hashableList : List SVal → Bool
  | [] => true
  | x :: xs => SVal.hashable x && SVal.hashableList xs
end

/-- `starlark.Set.Insert`: fails on an unhashable value, ignores an
already-present member, otherwise appends (insertion order). -/
def setInsert (xs : List SVal) (v : SVal) : Option (List SVal) :=
  if SVal.hashable v then
    some (if xs.any fun x => SVal.beq x v then xs else xs ++ [v])
  else Option.none

mutual
/-- `walkStructEncode`: walk the struct's fields in declaration order,
writing each non-ignored exported field into the destination dictionary
under its resolved name; an unnamed embedded struct is walked into the
same destination (flattening). -/
def walkStructEncode (path : String) (flds : List FieldT) (vals : List GoVal)
    (dst : List (String × SVal)) : Except EncErr (List (String × SVal)) :=
  match flds, vals with
  | [], _ => .ok dst
  | _ :: _, [] => .ok dst
  | .mk fname ftag fexp fanon ftyp :: fs, v :: vs =>
    let nm := (cutComma ftag).1
    let rawOpts := (cutComma ftag).2
    if ¬fexp ∨ nm = "-" then walkStructEncode path fs vs dst
    else
      let path1 := joinPath path fname
      if nm = "" ∧ fanon then
        if ¬isStructOrPtrType ftyp then .error (.embeddedNotStruct path1)
        else
          match ftyp, v with
          | .strct sfs, .strct svs =>
            match walkStructEncode path1 sfs svs dst with
            | .ok dst1 => walkStructEncode path fs vs dst1
            | .error e => .error e
          | _, _ =>
            -- an unnamed embedded pointer-to-struct reaches reflect's
            -- NumField on a pointer value, which panics
            .error (.reflectPanic path1)
      else
        let nm1 := if nm = "" then fname else nm
        match toStarlarkValue path1 nm1 ftyp v dst (splitOpts rawOpts) with
        | .ok dst1 => walkStructEncode path fs vs dst1
        | .error e => .error e
termination_by (sizeOf vals, 3)

/-- `toStarlarkValue`: convert the field value and write it under the
resolved key (`SetKey` with a string key cannot fail). -/
def toStarlarkValue (path dstName : String) (t : GoTyp) (v : GoVal)
    (dst : List (String × SVal)) (opts : List String) :
    Except EncErr (List (String × SVal)) :=
  match convertGoValue path t v opts with
  | .ok sval => .ok (dictSet dst dstName sval)
  | .error e => .error e
termination_by (sizeOf v, 2)

/-- `convertGoValue`, entry: the single level of indirection.  A pointer
whose element type is itself a pointer is not dereferenced (and later
falls to the default branch); a nil pointer short-circuits to `None`. -/
def convertGoValue (path : String) (t : GoTyp) (v : GoVal) (opts : List String) :
    Except EncErr SVal :=
  match t, v with
  | .ptr te, .ptr ov =>
    if te.isPtr then convertGoValueBase path (.ptr te) (.ptr ov) opts
    else
      match ov with
      | Option.none => .ok .none
      | some iv => convertGoValueBase path te iv opts
  | t1, v1 => convertGoValueBase path t1 v1 opts
termination_by (sizeOf v, 1)

/-- Body of `convertGoValue` after the indirection is resolved: the
nil re-check for slices and maps followed by the type-driven dispatch, in
the source's branch order. -/
def convertGoValueBase (path : String) (t : GoTyp) (v : GoVal) (opts : List String) :
    Except EncErr SVal :=
  let isNil := match t, v with
    | .slice _, .slice true _ => true
    | .mapT _ _, .mapV true _ => true
    | _, _ => false
  let curOpt := tagCurrent opts
  if isNil then .ok .none
  else
    match t, v with
    | .bool, .bool b => .ok (.bool b)
    | .float64, .float64 f => .ok (.float f)
    | .int _, .int _ iv => .ok (.int iv)
    | .uint _, .uint _ uv => .ok (.int uv)
    | .str, .str s =>
      if curOpt = "asbytes" then .ok (.bytes s) else .ok (.str s)
    | .slice et, .slice _ elems =>
      if isByteSliceType (.slice et) ∧ curOpt ≠ "aslist" ∧ curOpt ≠ "astuple"
          ∧ curOpt ≠ "asset" then
        if curOpt = "asstring" then .ok (.str (bytesToStr elems))
        else .ok (.bytes (bytesToStr elems))
      else if curOpt = "astuple" then
        (encodeElems path 0 et elems opts).map SVal.tuple
      else if curOpt = "asset" then
        (encodeSetElems path 0 et elems opts []).map SVal.set
      else
        (encodeElems path 0 et elems opts).map SVal.list
    | .mapT kt vt, .mapV _ entries =>
      if isSetMapType (.mapT kt vt) then
        (encodeSetMap path kt entries opts []).map SVal.set
      else .error (.unsupported path)
    | .strct sfs, .strct svs =>
      (walkStructEncode path sfs svs []).map SVal.dict
    | _, _ => .error (.unsupported path)
termination_by (sizeOf v, 0)

/-- Element loop for List/Tuple encoding: each element encodes with the
option list shifted one level, at an indexed path. -/
def encodeElems (path : String) (i : Nat) (et : GoTyp) (elems : List GoVal)
    (opts : List String) : Except EncErr (List SVal) :=
  match elems with
  | [] => .ok []
  | e :: es =>
    match convertGoValue (indexPath path i) et e (tagShift opts) with
    | .ok s => (encodeElems path (i + 1) et es opts).map fun rest => s :: rest
    | .error err => .error err
termination_by (sizeOf elems, 0)

/-- Element loop for `asset` encoding: converted elements are inserted
into the set; a failed insertion is an error at the element's path. -/
def encodeSetElems (path : String) (i : Nat) (et : GoTyp) (elems : List GoVal)
    (opts : List String) (acc : List SVal) : Except EncErr (List SVal) :=
  match elems with
  | [] => .ok acc
  | e :: es =>
    let pathi := indexPath path i
    match convertGoValue pathi et e (tagShift opts) with
    | .ok s =>
      match setInsert acc s with
      | some acc1 => encodeSetElems path (i + 1) et es opts acc1
      | Option.none => .error (.insertFailed pathi)
    | .error err => .error err
termination_by (sizeOf elems, 0)

/-- Key loop for set-shaped maps: keys whose value is `true` are encoded
(with the options shifted) and inserted into the set; other entries are
skipped. -/
def encodeSetMap (path : String) (kt : GoTyp) (entries : List (GoVal × GoVal))
    (opts : List String) (acc : List SVal) : Except EncErr (List SVal) :=
  match entries with
  | [] => .ok acc
  | (k, vv) :: rest =>
    match vv with
    | .bool true =>
      let pathk := path ++ "[" ++ goValShow k ++ "]"
      match convertGoValue pathk kt k (tagShift opts) with
      | .ok s =>
        match setInsert acc s with
        | some acc1 => encodeSetMap path kt rest opts acc1
        | Option.none => .error (.insertFailed pathk)
      | .error err => .error err
    | _ => encodeSetMap path kt rest opts acc
termination_by (sizeOf entries, 0)
end

/-- `ToStarlark` after its precondition checks: walk the struct into the
destination dictionary. -/
def ToStarlark (flds : List FieldT) (vals : List GoVal)
    (dst : List (String × SVal)) : Except EncErr (List (String × SVal)) :=
  walkStructEncode "" flds vals dst

/-! ## Entry-point preconditions (§6) -/

/-- The pointer-stripping loop at the top of `ToStarlark`
(`for strct.Kind() == reflect.Pointer { strct = strct.Elem() }`); `none`
models reaching the invalid value obtained from dereferencing nil. -/
def stripPtrs : GoVal → Option GoVal
  | .ptr (some v) => stripPtrs v
  | .ptr Option.none => Option.none
  | v => some v

/-- `ToStarlark`'s precondition: the call proceeds into the walk exactly
when the argument (nil modelled as `none`) strips through pointers to a
struct value; otherwise it panics. -/
def toStarlarkProceeds : Option GoVal → Bool
  | Option.none => false
  | some v =>
    match stripPtrs v with
    | some (.strct _) => true
    | _ => false

/-- Non-nil pointer value test (`!rval.IsNil()`). -/
def isNonNilPtrVal : GoVal → Bool
  | .ptr (some _) => true
  | _ => false

/-- `FromStarlark`'s precondition: the destination (nil modelled as
`none`) must be of pointer-to-struct type and non-nil; the dereferenced
struct is then addressable and settable. -/
def fromStarlarkProceeds : Option (GoTyp × GoVal) → Bool
  | Option.none => false
  | some (t, v) => isStructPtrType t && isNonNilPtrVal v

/-! ## Aggregating encoder (`ToStarlark` with error collection and
`MaxToErrors`) -/

/-- Errors collected by the aggregating encoder: a type error (with the
embedded-field flag), a container-insertion error, and the synthetic
"maximum number of errors reached" entry. -/
inductive AErr where
  | typeErr (path : String) (embedded : Bool)
  | containerErr (path : String)
  | maxErrors
deriving DecidableEq, Repr

/-- Encoder state: collected errors and the configured cap (`MaxToErrors`;
`0` models "no cap", as Go treats `max <= 0`). -/
structure EncSt where
  errs : List AErr
  maxErrs : Nat
deriving DecidableEq, Repr

namespace Agg

/-- `recordErr` (encoder): when the cap is configured and already full,
append the sentinel and abort (the `tooManyErrs` panic, `true` in the
second component); otherwise append the error. -/
def recordErr (st : EncSt) (e : AErr) : EncSt × Bool :=
  if 0 < st.maxErrs ∧ st.errs.length = st.maxErrs then
    ({ st with errs := st.errs ++ [.maxErrors] }, true)
  else
    ({ st with errs := st.errs ++ [e] }, false)

mutual
/-- `walkStructEncode` (aggregating): as the error-returning walk, but a
failed field records its error and the walk continues; only the cap (or
a reflect panic) aborts the traversal.  The loop body is `encodeField`. -/
def walkStructEncode (path : String) (flds : List FieldT) (vals : List GoVal)
    (dst : List (String × SVal)) (st : EncSt) :
    EncSt × Option (List (String × SVal)) :=
  match flds, vals with
  | [], _ => (st, some dst)
  | _ :: _, [] => (st, some dst)
  | f :: fs, v :: vs =>
    match encodeField path f v dst st with
    | (st1, some dst1) => walkStructEncode path fs vs dst1 st1
    | (st1, Option.none) => (st1, Option.none)
termination_by (sizeOf vals, 4)

/-- One iteration of the aggregating walk's loop: skip ignored and
unexported fields, record (and survive) a non-struct unnamed embedded
field, flatten an unnamed embedded struct into the same destination, and
otherwise convert-and-write the field under its resolved name. -/
def encodeField (path : String) (f : FieldT) (v : GoVal)
    (dst : List (String × SVal)) (st : EncSt) :
    EncSt × Option (List (String × SVal)) :=
  match f with
  | .mk fname ftag fexp fanon ftyp =>
    let nm := (cutComma ftag).1
    if ¬fexp ∨ nm = "-" then (st, some dst)
    else
      let path1 := joinPath path fname
      if nm = "" ∧ fanon then
        if ¬isStructOrPtrType ftyp then
          let r := recordErr st (.typeErr path1 true)
          if r.2 then (r.1, Option.none) else (r.1, some dst)
        else
          match ftyp, v with
          | .strct sfs, .strct svs => walkStructEncode path1 sfs svs dst st
          | _, _ =>
            -- an unnamed embedded pointer-to-struct reaches reflect's
            -- NumField on a pointer value, which panics
            (st, Option.none)
      else
        toStarlarkValue path1 (if nm = "" then fname else nm) ftyp v dst
          (splitOpts (cutComma ftag).2) st
termination_by (sizeOf v, 3)

/-- `toStarlarkValue` (aggregating): convert (recording any failure) and
write the resulting value — `None` on a failed conversion — under the
resolved key; `SetKey` with a string key cannot fail. -/
def toStarlarkValue (path dstName : String) (t : GoTyp) (v : GoVal)
    (dst : List (String × SVal)) (opts : List String) (st : EncSt) :
    EncSt × Option (List (String × SVal)) :=
  match convertGoValue path t v opts st with
  | (st1, some sval) => (st1, some (dictSet dst dstName sval))
  | (st1, Option.none) => (st1, Option.none)
termination_by (sizeOf v, 2)

/-- `convertGoValue` (aggregating), entry: the single level of
indirection, as in the error-returning encoder. -/
def convertGoValue (path : String) (t : GoTyp) (v : GoVal) (opts : List String)
    (st : EncSt) : EncSt × Option SVal :=
  match t, v with
  | .ptr te, .ptr ov =>
    if te.isPtr then convertGoValueBase path (.ptr te) (.ptr ov) opts st
    else
      match ov with
      | Option.none => (st, some .none)
      | some iv => convertGoValueBase path te iv opts st
  | t1, v1 => convertGoValueBase path t1 v1 opts st
termination_by (sizeOf v, 1)

/-- Body of the aggregating `convertGoValue`: adds the `starlark.Value`
passthrough (including its nil-interface check) to the dispatch, and the
default branch records a type error and yields `None` so the key is still
written. -/
def convertGoValueBase (path : String) (t : GoTyp) (v : GoVal) (opts : List String)
    (st : EncSt) : EncSt × Option SVal :=
  let isNil := match t, v with
    | .slice _, .slice true _ => true
    | .mapT _ _, .mapV true _ => true
    | .starVal, .star Option.none => true
    | _, _ => false
  let curOpt := tagCurrent opts
  if isNil then (st, some .none)
  else
    match t, v with
    | .starVal, .star (some sv) => (st, some sv)
    | .bool, .bool b => (st, some (.bool b))
    | .float64, .float64 f => (st, some (.float f))
    | .int _, .int _ iv => (st, some (.int iv))
    | .uint _, .uint _ uv => (st, some (.int uv))
    | .str, .str s =>
      if curOpt = "asbytes" then (st, some (.bytes s)) else (st, some (.str s))
    | .slice et, .slice _ elems =>
      if isByteSliceType (.slice et) ∧ curOpt ≠ "aslist" ∧ curOpt ≠ "astuple"
          ∧ curOpt ≠ "asset" then
        if curOpt = "asstring" then (st, some (.str (bytesToStr elems)))
        else (st, some (.bytes (bytesToStr elems)))
      else if curOpt = "astuple" then
        match encodeElems path 0 et elems opts st with
        | (st1, some xs) => (st1, some (.tuple xs))
        | (st1, Option.none) => (st1, Option.none)
      else if curOpt = "asset" then
        match encodeSetElems path 0 et elems opts [] st with
        | (st1, some xs) => (st1, some (.set xs))
        | (st1, Option.none) => (st1, Option.none)
      else
        match encodeElems path 0 et elems opts st with
        | (st1, some xs) => (st1, some (.list xs))
        | (st1, Option.none) => (st1, Option.none)
    | .mapT kt vt, .mapV _ entries =>
      if isSetMapType (.mapT kt vt) then
        match encodeSetMap path kt entries opts [] st with
        | (st1, some xs) => (st1, some (.set xs))
        | (st1, Option.none) => (st1, Option.none)
      else
        let r := recordErr st (.typeErr path false)
        if r.2 then (r.1, Option.none) else (r.1, some .none)
    | .strct sfs, .strct svs =>
      match walkStructEncode path sfs svs [] st with
      | (st1, some d) => (st1, some (.dict d))
      | (st1, Option.none) => (st1, Option.none)
    | _, _ =>
      let r := recordErr st (.typeErr path false)
      if r.2 then (r.1, Option.none) else (r.1, some .none)
termination_by (sizeOf v, 0)

/-- Element loop for List/Tuple encoding (aggregating). -/
def encodeElems (path : String) (i : Nat) (et : GoTyp) (elems : List GoVal)
    (opts : List String) (st : EncSt) : EncSt × Option (List SVal) :=
  match elems with
  | [] => (st, some [])
  | e :: es =>
    match convertGoValue (indexPath path i) et e (tagShift opts) st with
    | (st1, some s) =>
      match encodeElems path (i + 1) et es opts st1 with
      | (st2, some rest) => (st2, some (s :: rest))
      | (st2, Option.none) => (st2, Option.none)
    | (st1, Option.none) => (st1, Option.none)
termination_by (sizeOf elems, 0)

/-- Element loop for `asset` encoding (aggregating): a failed insertion
records a container error and the loop continues with the set unchanged. -/
def encodeSetElems (path : String) (i : Nat) (et : GoTyp) (elems : List GoVal)
    (opts : List String) (acc : List SVal) (st : EncSt) :
    EncSt × Option (List SVal) :=
  match elems with
  | [] => (st, some acc)
  | e :: es =>
    let pathi := indexPath path i
    match convertGoValue pathi et e (tagShift opts) st with
    | (st1, some s) =>
      match setInsert acc s with
      | some acc1 => encodeSetElems path (i + 1) et es opts acc1 st1
      | Option.none =>
        let r := recordErr st1 (.containerErr pathi)
        if r.2 then (r.1, Option.none)
        else encodeSetElems path (i + 1) et es opts acc r.1
    | (st1, Option.none) => (st1, Option.none)
termination_by (sizeOf elems, 0)

/-- Key loop for set-shaped maps (aggregating). -/
def encodeSetMap (path : String) (kt : GoTyp) (entries : List (GoVal × GoVal))
    (opts : List String) (acc : List SVal) (st : EncSt) :
    EncSt × Option (List SVal) :=
  match entries with
  | [] => (st, some acc)
  | (k, vv) :: rest =>
    match vv with
    | .bool true =>
      let pathk := path ++ "[" ++ goValShow k ++ "]"
      match convertGoValue pathk kt k (tagShift opts) st with
      | (st1, some s) =>
        match setInsert acc s with
        | some acc1 => encodeSetMap path kt rest opts acc1 st1
        | Option.none =>
          let r := recordErr st1 (.containerErr pathk)
          if r.2 then (r.1, Option.none)
          else encodeSetMap path kt rest opts acc r.1
      | (st1, Option.none) => (st1, Option.none)
    | _ => encodeSetMap path kt rest opts acc st
termination_by (sizeOf entries, 0)
end

/-- `ToStarlark` with options: run the walk from a clean state with the
configured cap; the first component holds the collected errors
(`errors.Join` of which is the returned error), the second is `none` when
the `tooManyErrs` panic aborted the traversal. -/
def ToStarlark (flds : List FieldT) (vals : List GoVal)
    (dst : List (String × SVal)) (maxErrs : Nat) :
    EncSt × Option (List (String × SVal)) :=
  walkStructEncode "" flds vals dst ⟨[], maxErrs⟩

end Agg

/-- `recordErr` (decoder, decode.go): append the error first, then append
the sentinel and abort when the count reaches the cap. -/
def recordErrDecoder (errs : List AErr) (maxErrs : Nat) (e : AErr) :
    List AErr × Bool :=
  let errs1 := errs ++ [e]
  if 0 < maxErrs ∧ maxErrs ≤ errs1.length then (errs1 ++ [.maxErrors], true)
  else (errs1, false)

/-- Feeding a sequence of field errors through the decoder's `recordErr`,
stopping as soon as it aborts: the error list a decode traversal
producing exactly these failures would collect. -/
def recordErrDecoderFold (errs : List AErr) (maxErrs : Nat) :
    List AErr → List AErr × Bool
  | [] => (errs, false)
  | e :: es =>
    let r := recordErrDecoder errs maxErrs e
    if r.2 then (r.1, true) else recordErrDecoderFold r.1 maxErrs es

/-! ## Proof infrastructure for the error-cap and round-trip claims -/

/-- The outcome of a capped encoder run, computed from the uncapped run's
error trace: if the trace fits under the cap the run is a shifted copy,
otherwise it is truncated at the cap, the sentinel is appended, and the
traversal aborts. -/
def capOut {α : Type} (E : List AErr) (n : Nat) (out : EncSt × Option α) :
    EncSt × Option α :=
  if E.length + out.1.errs.length ≤ n ∨ n = 0 then
    (⟨E ++ out.1.errs, n⟩, out.2)
  else
    (⟨E ++ List.take (n - E.length) out.1.errs ++ [AErr.maxErrors], n⟩, Option.none)

/-- Starlark encoding of a scalar Go value (the value the encoder writes). -/
def encScalar : GoVal → SVal
  | .bool b => .bool b
  | .int _ i => .int i
  | .uint _ u => .int u
  | .float64 f => .float f
  | .str s => .str s
  | _ => .none

/-- Well-formed scalar field/value pair: matching widths and in-range
values (every value a real Go variable of the type can hold). -/
def scalarOk : GoTyp → GoVal → Bool
  | .bool, .bool _ => true
  | .int w, .int w' i => w == w' && decide (w.minVal ≤ i) && decide (i ≤ w.maxVal)
  | .uint w, .uint w' u => w == w' && decide (u ≤ w.maxVal)
  | .float64, .float64 _ => true
  | .str, .str _ => true
  | _, _ => false

/-- All fields exported, non-anonymous, untagged, of scalar type, with
well-formed matching values. -/
def scalarFieldsOk : List FieldT → List GoVal → Bool
  | [], [] => true
  | .mk _ tag exp anon t :: fs, v :: vs =>
    exp && !anon && (tag == "") && scalarOk t v && scalarFieldsOk fs vs
  | _, _ => false

/-- The dictionary the encoder builds for a scalar record. -/
def encodeDict : List FieldT → List GoVal → List (String × SVal) → List (String × SVal)
  | .mk fname _ _ _ _ :: fs, v :: vs, d => encodeDict fs vs (dictSet d fname (encScalar v))
  | _, _, d => d

set_option maxHeartbeats 1000000 in
/-- Soundness and completeness of the boolean equalities, by strong
induction on size: they coincide with propositional equality. -/
theorem beq_lawful : ∀ n : Nat,
    (∀ a b : SVal, sizeOf a ≤ n → (SVal.beq a b = true ↔ a = b)) ∧
    (∀ xs ys : List SVal, sizeOf xs ≤ n → (SVal.beqList xs ys = true ↔ xs = ys)) ∧
    (∀ es fs : List (String × SVal), sizeOf es ≤ n → (SVal.beqEntries es fs = true ↔ es = fs)) ∧
    (∀ a b : GoVal, sizeOf a ≤ n → (GoVal.beq a b = true ↔ a = b)) ∧
    (∀ xs ys : List GoVal, sizeOf xs ≤ n → (GoVal.beqList xs ys = true ↔ xs = ys)) ∧
    (∀ ps qs : List (GoVal × GoVal), sizeOf ps ≤ n → (GoVal.beqPairs ps qs = true ↔ ps = qs)) := by
  intro n
  induction n using Nat.strong_induction_on with
  | _ n ih =>
    refine ⟨?_, ?_, ?_, ?_, ?_, ?_⟩
    · intro a b hs
      cases a <;> cases b <;> (try (simp [SVal.beq]; done))
      case dict.dict es fs =>
        simp only [SVal.beq, SVal.dict.injEq]
        exact (ih (n-1) (by simp at hs; omega)).2.2.1 es fs (by simp at hs; omega)
      case list.list xs ys =>
        simp only [SVal.beq, SVal.list.injEq]
        exact (ih (n-1) (by simp at hs; omega)).2.1 xs ys (by simp at hs; omega)
      case tuple.tuple xs ys =>
        simp only [SVal.beq, SVal.tuple.injEq]
        exact (ih (n-1) (by simp at hs; omega)).2.1 xs ys (by simp at hs; omega)
      case set.set xs ys =>
        simp only [SVal.beq, SVal.set.injEq]
        exact (ih (n-1) (by simp at hs; omega)).2.1 xs ys (by simp at hs; omega)
    · intro xs ys hs
      cases xs <;> cases ys <;> (try (simp [SVal.beqList]; done))
      case cons.cons x xt y yt =>
        simp only [SVal.beqList, Bool.and_eq_true, List.cons.injEq]
        rw [(ih (n-1) (by simp at hs; omega)).1 x y (by simp at hs; omega),
            (ih (n-1) (by simp at hs; omega)).2.1 xt yt (by simp at hs; omega)]
    · intro es fs hs
      cases es <;> cases fs <;> (try (simp [SVal.beqEntries]; done))
      case cons.cons e et f ft =>
        obtain ⟨k1, v1⟩ := e
        obtain ⟨k2, v2⟩ := f
        simp only [SVal.beqEntries, Bool.and_eq_true, List.cons.injEq, Prod.mk.injEq, beq_iff_eq]
        rw [(ih (n-1) (by simp at hs; omega)).1 v1 v2 (by simp at hs; omega),
            (ih (n-1) (by simp at hs; omega)).2.2.1 et ft (by simp at hs; omega)]
    · intro a b hs
      cases a <;> cases b <;> (try (simp [GoVal.beq]; done))
      case slice.slice n1 xs n2 ys =>
        simp only [GoVal.beq, Bool.and_eq_true, beq_iff_eq, GoVal.slice.injEq]
        rw [(ih (n-1) (by simp at hs; omega)).2.2.2.2.1 xs ys (by simp at hs; omega)]
      case mapV.mapV n1 ps n2 qs =>
        simp only [GoVal.beq, Bool.and_eq_true, beq_iff_eq, GoVal.mapV.injEq]
        rw [(ih (n-1) (by simp at hs; omega)).2.2.2.2.2 ps qs (by simp at hs; omega)]
      case strct.strct xs ys =>
        simp only [GoVal.beq, GoVal.strct.injEq]
        exact (ih (n-1) (by simp at hs; omega)).2.2.2.2.1 xs ys (by simp at hs; omega)
      case ptr.ptr ov1 ov2 =>
        cases ov1 <;> cases ov2 <;> (try (simp [GoVal.beq]; done))
        case some.some w1 w2 =>
          simp only [GoVal.beq, GoVal.ptr.injEq, Option.some.injEq]
          exact (ih (n-1) (by simp at hs; omega)).2.2.2.1 w1 w2 (by simp at hs; omega)
      case star.star ov1 ov2 =>
        cases ov1 <;> cases ov2 <;> (try (simp [GoVal.beq]; done))
        case some.some w1 w2 =>
          simp only [GoVal.beq, GoVal.star.injEq, Option.some.injEq]
          exact (ih (n-1) (by simp at hs; omega)).1 w1 w2 (by simp at hs; omega)
    · intro xs ys hs
      cases xs <;> cases ys <;> (try (simp [GoVal.beqList]; done))
      case cons.cons x xt y yt =>
        simp only [GoVal.beqList, Bool.and_eq_true, List.cons.injEq]
        rw [(ih (n-1) (by simp at hs; omega)).2.2.2.1 x y (by simp at hs; omega),
            (ih (n-1) (by simp at hs; omega)).2.2.2.2.1 xt yt (by simp at hs; omega)]
    · intro ps qs hs
      cases ps <;> cases qs <;> (try (simp [GoVal.beqPairs]; done))
      case cons.cons p pt q qt =>
        obtain ⟨k1, v1⟩ := p
        obtain ⟨k2, v2⟩ := q
        simp only [GoVal.beqPairs, Bool.and_eq_true, List.cons.injEq, Prod.mk.injEq]
        rw [(ih (n-1) (by simp at hs; omega)).2.2.2.1 k1 k2 (by simp at hs; omega),
            (ih (n-1) (by simp at hs; omega)).2.2.2.1 v1 v2 (by simp at hs; omega),
            (ih (n-1) (by simp at hs; omega)).2.2.2.2.2 pt qt (by simp at hs; omega)]

/-- `SVal.beq` decides equality. -/
theorem sval_beq_eq_iff (a b : SVal) : SVal.beq a b = true ↔ a = b :=
  (beq_lawful (sizeOf a)).1 a b le_rfl

/-- `GoVal.beq` decides equality. -/
theorem goval_beq_eq_iff (a b : GoVal) : GoVal.beq a b = true ↔ a = b :=
  (beq_lawful (sizeOf a)).2.2.2.1 a b le_rfl

instance : DecidableEq SVal := fun a b => decidable_of_iff _ (sval_beq_eq_iff a b)

instance : DecidableEq GoVal := fun a b => decidable_of_iff _ (goval_beq_eq_iff a b)



/-- C10: when the destination field's type is the `starlark.Value`
interface or a single pointer to it, `fromStarlarkValue` assigns the
source value as-is (via `setFieldStarlark`, allocating the pointer)
before any kind-based dispatch; in particular decoding `None` into such a
field succeeds and stores `None` instead of being rejected by the rule
that `None` needs a pointer, slice or map destination. -/
theorem c10_starlark_value_passthrough (path : String) (sv : SVal) (t : GoTyp)
    (v : GoVal) (h : isStarOrPtrStar t = true) :
    fromStarlarkValue path sv t v =
      .ok (if t.isPtr then GoVal.ptr (some (.star (some sv))) else .star (some sv)) := by
  rw [fromStarlarkValue.eq_def]
  rw [if_pos h]
  cases t with
  | ptr te =>
    cases te <;> simp_all [isStarOrPtrStar, setFieldStarlark, GoTyp.isPtr]
  | _ => simp_all [isStarOrPtrStar, setFieldStarlark, GoTyp.isPtr]

/-- Witness for C10 at a concrete input: `None` decoded into a
`starlark.Value` field is stored as-is. -/
theorem c10_starlark_value_passthrough_witness :
    fromStarlarkValue "F" SVal.none .starVal (.star Option.none) =
      .ok (if GoTyp.starVal.isPtr then GoVal.ptr (some (.star (some SVal.none)))
           else .star (some SVal.none)) :=
  c10_starlark_value_passthrough "F" SVal.none .starVal (.star Option.none) (by decide)



/-- C8 counterexample: the claim says decoding `None` into a destination
that is not a pointer, not a slice and not a map is always a type error,
but a `starlark.Value` destination is none of those and decoding `None`
into it succeeds (the passthrough runs before the kind dispatch). -/
theorem c8_counterexample_star_none :
    kindPtrSliceMap .starVal = false ∧
    fromStarlarkValue "F" SVal.none .starVal (.star Option.none) =
      .ok (.star (some SVal.none)) := by
  refine ⟨rfl, ?_⟩
  rw [fromStarlarkValue.eq_def]
  simp [isStarOrPtrStar, setFieldStarlark]

/-- C8 (amended): encoding a nil single-level pointer, nil slice or nil
map field yields `None`; decoding `None` into a destination that is not a
pointer, slice or map — and not the `starlark.Value` passthrough type —
is a type error; decoding `None` into a pointer, slice or map destination
(other than a pointer to `starlark.Value`) assigns the zero value. -/
theorem c8_none_optionality :
    (∀ path te opts, te.isPtr = false →
      convertGoValue path (.ptr te) (.ptr Option.none) opts = .ok SVal.none) ∧
    (∀ path et opts, convertGoValue path (.slice et) (.slice true []) opts = .ok SVal.none) ∧
    (∀ path kt vt opts, convertGoValue path (.mapT kt vt) (.mapV true []) opts = .ok SVal.none) ∧
    (∀ path t v, kindPtrSliceMap t = false → isStarOrPtrStar t = false →
      fromStarlarkValue path SVal.none t v = .error (.cannotAssign "None" path)) ∧
    (∀ path t v, kindPtrSliceMap t = true → isStarOrPtrStar t = false →
      fromStarlarkValue path SVal.none t v = .ok (zeroVal t)) := by
  refine ⟨?_, ?_, ?_, ?_, ?_⟩
  · intro path te opts h
    rw [convertGoValue.eq_def]
    simp [h]
  · intro path et opts
    rw [convertGoValue.eq_def]
    simp
    rw [convertGoValueBase.eq_def]
    simp
  · intro path kt vt opts
    rw [convertGoValue.eq_def]
    simp
    rw [convertGoValueBase.eq_def]
    simp
  · intro path t v h1 h2
    rw [fromStarlarkValue.eq_def]
    simp [h2, setFieldNone, h1]
  · intro path t v h1 h2
    rw [fromStarlarkValue.eq_def]
    simp [h2, setFieldNone, h1]

/-- Witness for C8 (amended) at concrete inputs: a nil `*bool` encodes to
`None`; `None` into a plain `bool` errors; `None` into a non-nil slice
zeroes it. -/
theorem c8_none_optionality_witness :
    convertGoValue "P" (.ptr .bool) (.ptr Option.none) [] = .ok SVal.none ∧
    fromStarlarkValue "P" SVal.none .bool (.bool true) =
      .error (.cannotAssign "None" "P") ∧
    fromStarlarkValue "P" SVal.none (.slice .str) (.slice false [.str "a"]) =
      .ok (zeroVal (.slice .str)) :=
  ⟨c8_none_optionality.1 "P" .bool [] (by decide),
   c8_none_optionality.2.2.2.1 "P" .bool (.bool true) (by decide) (by decide),
   c8_none_optionality.2.2.2.2 "P" (.slice .str) (.slice false [.str "a"])
     (by decide) (by decide)⟩



/-- Helper: the bit position of `2 ^ 53 + 1`. -/
theorem log2_two_pow_53_add_one : Nat.log2 9007199254740993 = 53 := by
  rw [Nat.log2_eq_log_two]
  exact Nat.log_eq_of_pow_le_of_lt_pow (by norm_num) (by norm_num)

/-- C3 (code bug): the decoder's `setFieldInt` converts an Integer into a
64-bit float destination with `starlark.AsFloat` and assigns the result
without any exactness check, so decoding `2^53 + 1` silently stores the
rounded value `2^53` and reports no "cannot exactly represent" error —
contradicting the spec and the package's own decode tests, which require
that conversion to fail.  (`2^53` itself is stored exactly.) -/
theorem c3_int_to_float_missing_exactness_check :
    setFieldInt "F64" .float64 (2 ^ 53 + 1) = .ok (.float64 (2 ^ 53)) ∧
    setFieldInt "F64" .float64 (2 ^ 53) = .ok (.float64 (2 ^ 53)) ∧
    ((2 : Int) ^ 53 + 1 ≠ 2 ^ 53) := by
  have h1 : Int.toNat (2 ^ 53 + 1) = 9007199254740993 := rfl
  refine ⟨?_, ?_, by norm_num⟩
  · simp only [setFieldInt, setFieldIntCore, numericKind]
    rw [roundToF64, roundNat53]
    rw [show ((2:Int) ^ 53 + 1 = (9007199254740993 : Int)) by norm_num] at h1 ⊢
    norm_num [h1, log2_two_pow_53_add_one]
  · simp only [setFieldInt, setFieldIntCore, numericKind]
    rw [roundToF64, roundNat53]
    norm_num

/-- The claim's characterization of a valid `ToStarlark` argument: a
record, or a single-level reference to one. -/
def isRecordOrSingleRef : GoVal → Bool
  | .strct _ => true
  | .ptr (some (.strct _)) => true
  | _ => false

/-- A chain of any number of non-nil references ending in a record. -/
def refChainToStruct : GoVal → Bool
  | .strct _ => true
  | .ptr (some w) => refChainToStruct w
  | _ => false

/-- C5 counterexample: a double reference to a record is neither a record
nor a single-level reference to one, yet `ToStarlark` proceeds into the
walk with it instead of aborting — its entry loop strips every pointer
level. -/
theorem c5_counterexample_double_reference :
    isRecordOrSingleRef (.ptr (some (.ptr (some (.strct []))))) = false ∧
    toStarlarkProceeds (some (.ptr (some (.ptr (some (.strct [])))))) = true := by
  exact ⟨rfl, rfl⟩

/-- C5 (amended): `FromStarlark` proceeds exactly on a non-nil value of
single-pointer-to-struct type and aborts on everything else (including
nil); `ToStarlark` aborts on nil and otherwise proceeds exactly when
stripping any number of non-nil pointer levels reaches a record — so a
record or a single-level reference proceeds, but so does any deeper
chain of references. -/
theorem c5_entry_preconditions :
    toStarlarkProceeds Option.none = false ∧
    (∀ v, toStarlarkProceeds (some v) = refChainToStruct v) ∧
    fromStarlarkProceeds Option.none = false ∧
    (∀ t v, fromStarlarkProceeds (some (t, v)) = true ↔
      ((∃ fs, t = .ptr (.strct fs)) ∧ ∃ iv, v = .ptr (some iv))) := by
  refine ⟨rfl, ?_, rfl, ?_⟩
  · have key : ∀ v : GoVal,
        (match stripPtrs v with
         | some (.strct _) => true
         | _ => false) = refChainToStruct v := by
      intro v
      induction v using refChainToStruct.induct with
      | case1 fs => simp [stripPtrs, refChainToStruct]
      | case2 w ihw => rw [stripPtrs, refChainToStruct]; exact ihw
      | case3 v h1 h2 =>
        rw [refChainToStruct.eq_def]
        cases v <;> simp_all [stripPtrs]
        case ptr ov =>
          cases ov <;> simp_all [stripPtrs]
    intro v
    rw [toStarlarkProceeds]
    exact key v
  · have hspt : ∀ t : GoTyp, isStructPtrType t = true ↔ ∃ fs, t = .ptr (.strct fs) := by
      intro t
      cases t <;> simp [isStructPtrType]
      case ptr te => cases te <;> simp [isStructPtrType]
    have hptr : ∀ v : GoVal, isNonNilPtrVal v = true ↔ ∃ iv, v = .ptr (some iv) := by
      intro v
      cases v <;> simp [isNonNilPtrVal]
      case ptr ov => cases ov <;> simp [isNonNilPtrVal]
    intro t v
    rw [fromStarlarkProceeds, Bool.and_eq_true, hspt, hptr]



/-- A field whose per-field decode step is a no-op keeps its value at any
position of the walk, even if other fields fail. -/
theorem walkStructDecode_preserves (path : String) (dict : List (String × SVal))
    {f : FieldT} {v : GoVal} (hf : decodeField path f v dict = (v, false, Option.none)) :
    ∀ flds vals i, flds.get? i = some f → vals.get? i = some v →
      (walkStructDecode path flds vals dict).1.get? i = some v := by
  intro flds
  induction flds with
  | nil => intro vals i h; simp at h
  | cons g gs ih =>
    intro vals i hg hv
    cases vals with
    | nil => simp at hv
    | cons w ws =>
      rw [walkStructDecode.eq_def]
      cases i with
      | zero =>
        simp only [List.get?] at hg hv
        obtain rfl : g = f := by injection hg
        obtain rfl : w = v := by injection hv
        simp [hf]
      | succ i =>
        simp only [List.get?] at hg hv
        simp only []
        cases herr : (decodeField path g w dict).2.2 with
        | none => simpa using ih ws i hg hv
        | some e => simpa using hv

/-- C2: a non-ignored exported field that performs a dictionary lookup
(i.e. is not an unnamed embedded struct) and whose resolved name — with
the all-lowercase fallback for tag-less fields — matches no key is left
completely untouched by the walk: its decode step returns the old value,
contributes no `didSet`, produces no error, and the field's slot in the
walked struct still holds the old value afterwards, regardless of what
happens to the other fields. -/
theorem c2_partial_overlay (path fname ftag : String) (fanon : Bool) (ftyp : GoTyp)
    (v : GoVal) (dict : List (String × SVal))
    (hskip : ¬(fanon = true ∧ (cutComma ftag).1 = ""))
    (hmain : dictGet dict (if (cutComma ftag).1 = "" then fname else (cutComma ftag).1)
      = Option.none)
    (hlower : (cutComma ftag).1 = "" → dictGet dict (toLowerAscii fname) = Option.none) :
    decodeField path (.mk fname ftag true fanon ftyp) v dict = (v, false, Option.none) ∧
    ∀ flds vals i, flds.get? i = some (FieldT.mk fname ftag true fanon ftyp) →
      vals.get? i = some v →
      (walkStructDecode path flds vals dict).1.get? i = some v := by
  have hstep : decodeField path (.mk fname ftag true fanon ftyp) v dict
      = (v, false, Option.none) := by
    rw [decodeField.eq_def]
    by_cases hdash : (cutComma ftag).1 = "-"
    · simp [hdash]
    · by_cases hempty : (cutComma ftag).1 = ""
      · have hanon : fanon = false := by
          cases fanon
          · rfl
          · exact absurd ⟨rfl, hempty⟩ hskip
        subst hanon
        have hl := hlower hempty
        rw [if_pos hempty] at hmain
        simp only [hempty, hdash]
        rw [if_neg (by simp), if_neg (by simp)]
        split
        · rename_i sv h2
          rw [if_pos hempty, hmain] at h2
          exact absurd h2 (by simp)
        · rename_i h2
          split
          · split
            · rename_i sv h4
              rw [if_pos hempty, hl] at h4
              exact absurd h4 (by simp)
            · rfl
          · rfl
      · rw [if_neg hempty] at hmain
        simp only [hdash]
        rw [if_neg (by simp [hdash]), if_neg (by simp [hempty])]
        split
        · rename_i sv h2
          rw [if_neg hempty, hmain] at h2
          exact absurd h2 (by simp)
        · rw [if_neg (by simpa using hempty)]
  exact ⟨hstep, walkStructDecode_preserves path dict hstep⟩

/-- Witness for C2 at a concrete input: an `Age` field with no tag and no
matching key (neither exact nor lowercase) keeps its prior value. -/
theorem c2_partial_overlay_witness :
    decodeField "" (.mk "Age" "" true false (.int .i)) (.int .i 22)
        [("name", .str "x")] = (.int .i 22, false, Option.none) ∧
    (walkStructDecode "" [.mk "Age" "" true false (.int .i)] [.int .i 22]
        [("name", .str "x")]).1.get? 0 = some (.int .i 22) := by
  have h := c2_partial_overlay "" "Age" "" false (.int .i) (.int .i 22)
    [("name", .str "x")] (by simp) (by decide) (fun _ => by decide)
  exact ⟨h.1, h.2 [.mk "Age" "" true false (.int .i)] [.int .i 22] 0 rfl rfl⟩



/-- C7: an anonymous embedded sub-record field with no directive name is
flattened — the walk encodes the sub-record's fields directly into the
parent's destination dictionary under their own resolved names; the same
field with an explicit directive name `"x"` instead produces the single
key `"x"` whose value is the Dict holding those fields. -/
theorem c7_embedded_flatten_vs_nest (N : String) (sfs : List FieldT)
    (svs : List GoVal) (d : List (String × SVal)) (hN : ¬N = "")
    (h : walkStructEncode N sfs svs [] = .ok d) :
    walkStructEncode "" [.mk N "" true true (.strct sfs)] [.strct svs] [] = .ok d ∧
    walkStructEncode "" [.mk N "x" true true (.strct sfs)] [.strct svs] [] =
      .ok [("x", .dict d)] := by
  have hjoin : joinPath "" N = N := by simp [joinPath, hN]
  constructor
  · rw [walkStructEncode.eq_def]
    simp only [show cutComma "" = ("", "") from by decide]
    rw [if_neg (by simp), if_pos (by simp)]
    rw [if_neg (by simp [isStructOrPtrType])]
    simp only [hjoin, h]
    rw [walkStructEncode.eq_def]
  · rw [walkStructEncode.eq_def]
    simp only [show cutComma "x" = ("x", "") from by decide]
    rw [if_neg (by simp), if_neg (by simp)]
    rw [toStarlarkValue.eq_def, convertGoValue.eq_def]
    simp only []
    rw [convertGoValueBase.eq_def]
    simp only [hjoin, h]
    simp [dictSet, walkStructEncode, Except.map]

/-- Witness for C7 at a concrete sub-record with one integer field. -/
theorem c7_embedded_flatten_vs_nest_witness :
    walkStructEncode "" [.mk "Sub" "" true true
        (.strct [.mk "I" "" true false (.int .i)])] [.strct [.int .i 7]] []
      = .ok [("I", .int 7)] ∧
    walkStructEncode "" [.mk "Sub" "x" true true
        (.strct [.mk "I" "" true false (.int .i)])] [.strct [.int .i 7]] []
      = .ok [("x", .dict [("I", .int 7)])] := by
  have hsub : walkStructEncode "Sub" [.mk "I" "" true false (.int .i)]
      [.int .i 7] [] = .ok [("I", .int 7)] := by
    rw [walkStructEncode.eq_def]
    simp only [show cutComma "" = ("", "") from by decide]
    rw [if_neg (by simp), if_neg (by simp)]
    rw [toStarlarkValue.eq_def, convertGoValue.eq_def]
    simp only []
    rw [convertGoValueBase.eq_def]
    simp [dictSet, walkStructEncode, joinPath, splitOpts]
  exact c7_embedded_flatten_vs_nest "Sub" [.mk "I" "" true false (.int .i)]
    [.int .i 7] [("I", .int 7)] (by decide) hsub



/-- C9 counterexample: with `MaxToErrors 1` and two unsupported fields,
the second failing field hits the cap — `recordErr` appends only the
sentinel and panics before the field's own type error is recorded and
before its key is written, so the claim's "records a type error AND
writes the key with None" fails for that field (the traversal aborts
with only the first field's error plus the sentinel). -/
theorem c9_counterexample_cap_reached :
    Agg.ToStarlark [.mk "F1" "" true false .chan, .mk "F2" "" true false .chan]
        [.chan, .chan] [] 1 =
      (⟨[.typeErr "F1" false, .maxErrors], 1⟩, Option.none) ∧
    AErr.typeErr "F2" false ∉ [AErr.typeErr "F1" false, AErr.maxErrors] := by
  constructor
  · rw [Agg.ToStarlark, Agg.walkStructEncode.eq_def]
    simp only []
    rw [Agg.encodeField.eq_def]
    simp only [show cutComma "" = ("", "") from by decide]
    rw [if_neg (by simp), if_neg (by simp)]
    rw [Agg.toStarlarkValue.eq_def, Agg.convertGoValue.eq_def]
    simp only []
    rw [Agg.convertGoValueBase.eq_def]
    simp only [Agg.recordErr]
    norm_num [joinPath, dictSet, splitOpts]
    rw [Agg.walkStructEncode.eq_def]
    simp only []
    rw [Agg.encodeField.eq_def]
    simp only [show cutComma "" = ("", "") from by decide]
    rw [if_neg (by simp), if_neg (by simp)]
    rw [Agg.toStarlarkValue.eq_def, Agg.convertGoValue.eq_def]
    simp only []
    rw [Agg.convertGoValueBase.eq_def]
    simp [Agg.recordErr, joinPath]
  · simp

/-- C9 (amended): when the error cap is not yet exhausted, encoding a
field of unsupported Go type records a type error for its path and still
writes the field's resolved key into the destination dictionary with the
value `None` — the key is mutated even though the conversion failed. -/
theorem c9_unsupported_field_writes_none (path nm : String) (v : GoVal)
    (dst : List (String × SVal)) (opts : List String) (st : EncSt)
    (h : st.maxErrs = 0 ∨ st.errs.length < st.maxErrs) :
    Agg.toStarlarkValue path nm .chan v dst opts st =
      (⟨st.errs ++ [.typeErr path false], st.maxErrs⟩,
       some (dictSet dst nm SVal.none)) := by
  have hrec : Agg.recordErr st (.typeErr path false)
      = (⟨st.errs ++ [.typeErr path false], st.maxErrs⟩, false) := by
    rw [Agg.recordErr]
    rw [if_neg (by omega)]
  rw [Agg.toStarlarkValue.eq_def, Agg.convertGoValue.eq_def]
  simp only []
  rw [Agg.convertGoValueBase.eq_def]
  cases v <;> simp [hrec]

/-- Witness for C9 (amended) at a concrete input. -/
theorem c9_unsupported_field_writes_none_witness :
    Agg.toStarlarkValue "Ch" "Ch" .chan .chan [] [] ⟨[], 0⟩ =
      (⟨[.typeErr "Ch" false], 0⟩, some (dictSet [] "Ch" SVal.none)) := by
  have h := c9_unsupported_field_writes_none "Ch" "Ch" .chan [] [] ⟨[], 0⟩
    (Or.inl rfl)
  simpa using h



/-- Lookup after `SetMapIndex`: the stored key answers for every
equal query, other keys are untouched. -/
theorem goMapGet_goMapSet (E : List (GoVal × GoVal)) (k v q : GoVal) :
    goMapGet (goMapSet E k v) q =
      if GoVal.beq k q then some v else goMapGet E q := by
  induction E with
  | nil =>
    simp only [goMapSet, goMapGet]
  | cons hd tl ih =>
    obtain ⟨k1, v1⟩ := hd
    simp only [goMapSet]
    by_cases h1 : k1 = k
    · subst h1
      rw [if_pos (by simp [goval_beq_eq_iff])]
      by_cases hq : k1 = q <;> simp [goMapGet, goval_beq_eq_iff, hq]
    · rw [if_neg (by simp [goval_beq_eq_iff, h1])]
      simp only [goMapGet]
      by_cases h2 : k1 = q
      · subst h2
        have hkk : GoVal.beq k k1 = false := by
          rw [Bool.eq_false_iff, Ne, goval_beq_eq_iff]
          exact fun he => h1 he.symm
        simp [goval_beq_eq_iff, hkk]
      · simp only [show GoVal.beq k1 q = false from by
          rw [Bool.eq_false_iff]; simp [goval_beq_eq_iff, h2]]
        simp [ih]

/-- Decoding the members of a Set into a Bool-valued map: when every
member decodes (to the keys `ks`, in iteration order), the loop succeeds
and the resulting map answers `true` for exactly the decoded members and
is unchanged elsewhere. -/
theorem decodeSetMembers_char (path : String) (t0 : GoTyp) :
    ∀ (xs : List SVal) (i : Nat) (ks : List GoVal) (E : List (GoVal × GoVal)),
      decodeElems path i t0 xs = .ok ks →
      ∃ E2, decodeSetMembers path i t0 xs E = .ok E2 ∧
        ∀ q, goMapGet E2 q =
          if ks.any (fun k => GoVal.beq k q) then some (.bool true)
          else goMapGet E q := by
  intro xs
  induction xs with
  | nil =>
    intro i ks E h
    rw [decodeElems.eq_def] at h
    simp only [] at h
    obtain rfl : ([] : List GoVal) = ks := by injection h
    refine ⟨E, by rw [decodeSetMembers.eq_def], ?_⟩
    intro q
    simp
  | cons x rest ih =>
    intro i ks E h
    rw [decodeElems.eq_def] at h
    simp only [] at h
    cases hfs : fromStarlarkValue (indexPath path i) x t0 (zeroVal t0) with
    | error e => rw [hfs] at h; simp at h
    | ok e =>
      rw [hfs] at h
      cases hrest : decodeElems path (i + 1) t0 rest with
      | error err => rw [hrest] at h; simp at h
      | ok es =>
        rw [hrest] at h
        simp only [] at h
        obtain rfl : e :: es = ks := by injection h
        obtain ⟨E2, hE2, hchar⟩ := ih (i + 1) es (goMapSet E e (.bool true)) hrest
        refine ⟨E2, ?_, ?_⟩
        · rw [decodeSetMembers.eq_def]
          simp only [hfs]
          exact hE2
        · intro q
          rw [hchar q, goMapGet_goMapSet]
          by_cases h1 : GoVal.beq e q = true <;>
            by_cases h2 : (es.any fun k => GoVal.beq k q) = true <;>
            simp [h1, h2]

/-- C6: decoding a Set whose members decode to the keys `ks`:
into a Bool-valued map destination it allocates only if the map is nil
(the nil and empty maps are decoded identically), keeps all existing
entries (entries whose key is not a set member are unchanged), and
stores every set member as a key with value `true`; into a slice
destination it yields exactly the decoded members, in the Set's
iteration order, replacing the old contents. -/
theorem c6_set_duality (path : String) (t0 : GoTyp) (xs : List SVal)
    (ks : List GoVal) (hdec : decodeElems path 0 t0 xs = .ok ks) :
    (∀ E, ∃ E2,
      setFieldSet path (.mapT t0 .bool) (.mapV false E) xs = .ok (.mapV false E2) ∧
      ∀ q, goMapGet E2 q =
        if ks.any (fun k => GoVal.beq k q) then some (.bool true) else goMapGet E q) ∧
    (setFieldSet path (.mapT t0 .bool) (.mapV true []) xs =
      setFieldSet path (.mapT t0 .bool) (.mapV false []) xs) ∧
    (∀ b el, setFieldSet path (.slice t0) (.slice b el) xs = .ok (.slice false ks)) := by
  refine ⟨?_, ?_, ?_⟩
  · intro E
    obtain ⟨E2, hE2, hchar⟩ := decodeSetMembers_char path t0 xs 0 ks E hdec
    refine ⟨E2, ?_, hchar⟩
    rw [setFieldSet.eq_def]
    simp only [mapEntriesOf, hE2]
  · rw [setFieldSet.eq_def, setFieldSet.eq_def]
    simp [mapEntriesOf]
  · intro b el
    rw [setFieldSet.eq_def]
    simp only []
    rw [setFieldIterator.eq_def]
    simp only []
    cases xs with
    | nil =>
      rw [decodeElems.eq_def] at hdec
      simp only [] at hdec
      obtain rfl : ([] : List GoVal) = ks := by injection hdec
      simp
    | cons x rest =>
      rw [if_neg (by simp)]
      rw [hdec]

/-- Witness for C6: a two-member string Set decoded into an existing
`map[string]bool` and into a `[]string`. -/
theorem c6_set_duality_witness :
    (∃ E2,
      setFieldSet "M" (.mapT .str .bool) (.mapV false [(.str "c", .bool true)])
          [.str "a", .str "b"] = .ok (.mapV false E2) ∧
      ∀ q, goMapGet E2 q =
        if [GoVal.str "a", GoVal.str "b"].any (fun k => GoVal.beq k q)
        then some (.bool true) else goMapGet [(GoVal.str "c", GoVal.bool true)] q) ∧
    setFieldSet "M" (.slice .str) (.slice true []) [.str "a", .str "b"] =
      .ok (.slice false [.str "a", .str "b"]) := by
  have hdec : decodeElems "M" 0 .str [SVal.str "a", SVal.str "b"]
      = .ok [GoVal.str "a", GoVal.str "b"] := by
    rw [decodeElems.eq_def]
    simp only []
    rw [fromStarlarkValue.eq_def]
    norm_num [isStarOrPtrStar, setFieldBytesOrString, isByteSliceType, GoTyp.isStr, zeroVal]
    rw [decodeElems.eq_def]
    simp only []
    rw [fromStarlarkValue.eq_def]
    norm_num [isStarOrPtrStar, setFieldBytesOrString, isByteSliceType, GoTyp.isStr, zeroVal]
    rw [decodeElems.eq_def]
  have h := c6_set_duality "M" .str [SVal.str "a", SVal.str "b"]
    [GoVal.str "a", GoVal.str "b"] hdec
  exact ⟨h.1 [(.str "c", .bool true)], h.2.2 true []⟩

theorem capOut_pure {α : Type} (E : List AErr) (m : Nat) (r : Option α)
    (hE : E.length ≤ m ∨ m = 0) :
    capOut E m ((⟨[], 0⟩ : EncSt), r) = (⟨E, m⟩, r) := by
  simp [capOut]
  intro h
  omega

theorem capOut_empty_zero {α : Type} (u : EncSt × Option α) :
    capOut [] 0 u = ((⟨u.1.errs, 0⟩ : EncSt), u.2) := by
  simp [capOut]

theorem capOut_seq {β : Type} (E tr1 tr2 : List AErr) (m z z' : Nat) (r : Option β)
    (h1 : E.length + tr1.length ≤ m ∨ m = 0) :
    capOut (E ++ tr1) m ((⟨tr2, z⟩ : EncSt), r) =
      capOut E m ((⟨tr1 ++ tr2, z'⟩ : EncSt), r) := by
  unfold capOut
  simp only [List.length_append, List.append_assoc]
  by_cases hc : E.length + (tr1.length + tr2.length) ≤ m ∨ m = 0
  · rw [if_pos (by omega), if_pos (by omega)]
  · rw [if_neg (by omega), if_neg (by omega)]
    have hl : tr1.length ≤ m - E.length := by omega
    rw [List.take_append_eq_append_take]
    rw [List.take_of_length_le hl]
    have h3 : m - (E.length + tr1.length) = m - E.length - tr1.length := by omega
    rw [h3]
    simp [List.append_assoc]

theorem capOut_seq_abort {α β : Type} (E tr1 tr2 : List AErr) (m z z' : Nat)
    (r2 : Option β)
    (hc : ¬(E.length + tr1.length ≤ m ∨ m = 0)) :
    capOut E m ((⟨tr1 ++ tr2, z'⟩ : EncSt), r2) =
      ((capOut E m ((⟨tr1, z⟩ : EncSt), (Option.none : Option α))).1,
        Option.none) := by
  unfold capOut
  simp only [List.length_append]
  rw [if_neg (by omega), if_neg (by omega)]
  rw [List.take_append_of_le_length (by omega)]

theorem recordErr_sim {α : Type} (E : List AErr) (m : Nat) (e : AErr) (a : α)
    (hE : E.length ≤ m ∨ m = 0) :
    (if (Agg.recordErr ⟨E, m⟩ e).2 then ((Agg.recordErr ⟨E, m⟩ e).1, Option.none)
     else ((Agg.recordErr ⟨E, m⟩ e).1, some a)) =
      capOut E m ((⟨[e], 0⟩ : EncSt), some a) := by
  unfold Agg.recordErr capOut
  by_cases hc : 0 < m ∧ E.length = m
  · rw [if_pos hc]
    have h3 : m - E.length = 0 := by omega
    have h4 : ¬(E.length + 1 ≤ m ∨ m = 0) := by omega
    simp [h3, h4]
  · rw [if_neg hc]
    have h4 : E.length + 1 ≤ m ∨ m = 0 := by omega
    simp [h4]

theorem capOut_zero {α : Type} (E tr : List AErr) (z : Nat) (r : Option α) :
    capOut E 0 ((⟨tr, z⟩ : EncSt), r) = (⟨E ++ tr, 0⟩, r) := by
  simp [capOut]

theorem recordErr_leaf_empty {α : Type} (e : AErr) (a : α) :
    (if (Agg.recordErr ⟨[], 0⟩ e).2 then ((Agg.recordErr ⟨[], 0⟩ e).1, Option.none)
     else ((Agg.recordErr ⟨[], 0⟩ e).1, some a)) = (⟨[e], 0⟩, some a) := by
  simp [Agg.recordErr]

theorem capOut_cap_hit {β : Type} (E tr1 rest : List AErr) (m z : Nat) (r : Option β)
    (h0 : 0 < m) (hlen : E.length + tr1.length = m) (hr : rest ≠ []) :
    capOut E m ((⟨tr1 ++ rest, z⟩ : EncSt), r) =
      (⟨E ++ tr1 ++ [AErr.maxErrors], m⟩, Option.none) := by
  unfold capOut
  have hrl : 0 < rest.length := List.length_pos.mpr hr
  rw [if_neg (by simp only [List.length_append]; omega)]
  rw [show m - E.length = tr1.length from by omega,
      List.take_append_of_le_length (le_refl _), List.take_length]

theorem aggSim : ∀ N : Nat,
    (∀ path t v opts E m, sizeOf v ≤ N → (E.length ≤ m ∨ m = 0) →
      Agg.convertGoValueBase path t v opts ⟨E, m⟩ =
        capOut E m (Agg.convertGoValueBase path t v opts ⟨[], 0⟩)) ∧
    (∀ path t v opts E m, sizeOf v ≤ N → (E.length ≤ m ∨ m = 0) →
      Agg.convertGoValue path t v opts ⟨E, m⟩ =
        capOut E m (Agg.convertGoValue path t v opts ⟨[], 0⟩)) ∧
    (∀ path dstName t v dst opts E m, sizeOf v ≤ N → (E.length ≤ m ∨ m = 0) →
      Agg.toStarlarkValue path dstName t v dst opts ⟨E, m⟩ =
        capOut E m (Agg.toStarlarkValue path dstName t v dst opts ⟨[], 0⟩)) ∧
    (∀ path f v dst E m, sizeOf v ≤ N → (E.length ≤ m ∨ m = 0) →
      Agg.encodeField path f v dst ⟨E, m⟩ =
        capOut E m (Agg.encodeField path f v dst ⟨[], 0⟩)) ∧
    (∀ path flds vals dst E m, sizeOf vals ≤ N → (E.length ≤ m ∨ m = 0) →
      Agg.walkStructEncode path flds vals dst ⟨E, m⟩ =
        capOut E m (Agg.walkStructEncode path flds vals dst ⟨[], 0⟩)) ∧
    (∀ path i et elems opts E m, sizeOf elems ≤ N → (E.length ≤ m ∨ m = 0) →
      Agg.encodeElems path i et elems opts ⟨E, m⟩ =
        capOut E m (Agg.encodeElems path i et elems opts ⟨[], 0⟩)) ∧
    (∀ path i et elems opts acc E m, sizeOf elems ≤ N → (E.length ≤ m ∨ m = 0) →
      Agg.encodeSetElems path i et elems opts acc ⟨E, m⟩ =
        capOut E m (Agg.encodeSetElems path i et elems opts acc ⟨[], 0⟩)) ∧
    (∀ path kt entries opts acc E m, sizeOf entries ≤ N → (E.length ≤ m ∨ m = 0) →
      Agg.encodeSetMap path kt entries opts acc ⟨E, m⟩ =
        capOut E m (Agg.encodeSetMap path kt entries opts acc ⟨[], 0⟩)) := by
  intro N
  induction N using Nat.strong_induction_on with
  | _ N ih =>
    have hB : (∀ path t v opts E m, sizeOf v ≤ N → (E.length ≤ m ∨ m = 0) →
        Agg.convertGoValueBase path t v opts ⟨E, m⟩ =
          capOut E m (Agg.convertGoValueBase path t v opts ⟨[], 0⟩)) := by
      intro path t v opts E m hs hE
      rw [Agg.convertGoValueBase.eq_def]
      conv_rhs => rw [Agg.convertGoValueBase.eq_def]
      cases t <;> cases v <;>
        try (first
          | (simp only [Bool.false_eq_true, if_false, if_true]
             rw [capOut_pure _ _ _ hE]
             done)
          | (simp only [Bool.false_eq_true, if_false, if_true]
             rw [recordErr_leaf_empty]
             exact recordErr_sim E m _ _ hE))
      case str.str =>
        simp only [Bool.false_eq_true, if_false, if_true]
        by_cases hco : tagCurrent opts = "asbytes"
        · simp only [if_pos hco]
          rw [capOut_pure _ _ _ hE]
        · simp only [if_neg hco]
          rw [capOut_pure _ _ _ hE]
      case slice.slice =>
        rename_i et b elems
        cases b with
        | true =>
          simp only [Bool.false_eq_true, if_false, if_true]
          rw [capOut_pure _ _ _ hE]
        | false =>
          simp only [Bool.false_eq_true, if_false, if_true]
          simp only [GoVal.slice.sizeOf_spec] at hs
          obtain ⟨_, _, _, _, _, ihL, ihS, _⟩ := ih (N - 1) (by omega)
          by_cases h1 : isByteSliceType (GoTyp.slice et) = true ∧
              tagCurrent opts ≠ "aslist" ∧ tagCurrent opts ≠ "astuple" ∧
              tagCurrent opts ≠ "asset"
          · simp only [if_pos h1]
            by_cases h2 : tagCurrent opts = "asstring"
            · simp only [if_pos h2]
              rw [capOut_pure _ _ _ hE]
            · simp only [if_neg h2]
              rw [capOut_pure _ _ _ hE]
          · simp only [if_neg h1]
            by_cases h2 : tagCurrent opts = "astuple"
            · simp only [if_pos h2]
              rcases hu : Agg.encodeElems path 0 et elems opts ⟨[], 0⟩ with ⟨⟨tr1, z⟩, r1⟩
              have hz : z = 0 := by
                have h := ihL path 0 et elems opts [] 0 (by omega) (Or.inr rfl)
                rw [capOut_empty_zero, hu] at h
                exact congrArg (fun p => p.1.maxErrs) h
              subst hz
              rw [ihL path 0 et elems opts E m (by omega) hE, hu]
              cases r1 <;> by_cases hc : E.length + tr1.length ≤ m ∨ m = 0 <;>
                simp [capOut, hc]
            · simp only [if_neg h2]
              by_cases h3 : tagCurrent opts = "asset"
              · simp only [if_pos h3]
                rcases hu : Agg.encodeSetElems path 0 et elems opts [] ⟨[], 0⟩
                  with ⟨⟨tr1, z⟩, r1⟩
                have hz : z = 0 := by
                  have h := ihS path 0 et elems opts [] [] 0 (by omega) (Or.inr rfl)
                  rw [capOut_empty_zero, hu] at h
                  exact congrArg (fun p => p.1.maxErrs) h
                subst hz
                rw [ihS path 0 et elems opts [] E m (by omega) hE, hu]
                cases r1 <;> by_cases hc : E.length + tr1.length ≤ m ∨ m = 0 <;>
                  simp [capOut, hc]
              · simp only [if_neg h3]
                rcases hu : Agg.encodeElems path 0 et elems opts ⟨[], 0⟩ with ⟨⟨tr1, z⟩, r1⟩
                have hz : z = 0 := by
                  have h := ihL path 0 et elems opts [] 0 (by omega) (Or.inr rfl)
                  rw [capOut_empty_zero, hu] at h
                  exact congrArg (fun p => p.1.maxErrs) h
                subst hz
                rw [ihL path 0 et elems opts E m (by omega) hE, hu]
                cases r1 <;> by_cases hc : E.length + tr1.length ≤ m ∨ m = 0 <;>
                  simp [capOut, hc]
      case mapT.mapV =>
        rename_i kt vt b entries
        cases b with
        | true =>
          simp only [Bool.false_eq_true, if_false, if_true]
          rw [capOut_pure _ _ _ hE]
        | false =>
          simp only [Bool.false_eq_true, if_false, if_true]
          by_cases h1 : isSetMapType (GoTyp.mapT kt vt) = true
          · simp only [if_pos h1]
            simp only [GoVal.mapV.sizeOf_spec] at hs
            obtain ⟨_, _, _, _, _, _, _, ihM⟩ := ih (N - 1) (by omega)
            rcases hu : Agg.encodeSetMap path kt entries opts [] ⟨[], 0⟩ with ⟨⟨tr1, z⟩, r1⟩
            have hz : z = 0 := by
              have h := ihM path kt entries opts [] [] 0 (by omega) (Or.inr rfl)
              rw [capOut_empty_zero, hu] at h
              exact congrArg (fun p => p.1.maxErrs) h
            subst hz
            rw [ihM path kt entries opts [] E m (by omega) hE, hu]
            cases r1 <;> by_cases hc : E.length + tr1.length ≤ m ∨ m = 0 <;>
              simp [capOut, hc]
          · simp only [if_neg h1]
            rw [recordErr_leaf_empty]
            exact recordErr_sim E m _ _ hE
      case strct.strct =>
        rename_i sfs svs
        simp only [Bool.false_eq_true, if_false, if_true]
        simp only [GoVal.strct.sizeOf_spec] at hs
        obtain ⟨_, _, _, _, ihW, _, _, _⟩ := ih (N - 1) (by omega)
        rcases hu : Agg.walkStructEncode path sfs svs [] ⟨[], 0⟩ with ⟨⟨tr1, z⟩, r1⟩
        have hz : z = 0 := by
          have h := ihW path sfs svs [] [] 0 (by omega) (Or.inr rfl)
          rw [capOut_empty_zero, hu] at h
          exact congrArg (fun p => p.1.maxErrs) h
        subst hz
        rw [ihW path sfs svs [] E m (by omega) hE, hu]
        cases r1 <;> by_cases hc : E.length + tr1.length ≤ m ∨ m = 0 <;>
          simp [capOut, hc]
      case starVal.star =>
        rename_i ov
        cases ov with
        | none =>
          simp only [Bool.false_eq_true, if_false, if_true]
          rw [capOut_pure _ _ _ hE]
        | some sv =>
          simp only [Bool.false_eq_true, if_false, if_true]
          rw [capOut_pure _ _ _ hE]
    have hC : (∀ path t v opts E m, sizeOf v ≤ N → (E.length ≤ m ∨ m = 0) →
        Agg.convertGoValue path t v opts ⟨E, m⟩ =
          capOut E m (Agg.convertGoValue path t v opts ⟨[], 0⟩)) := by
      intro path t v opts E m hs hE
      rw [Agg.convertGoValue.eq_def]
      conv_rhs => rw [Agg.convertGoValue.eq_def]
      cases t <;> cases v <;> simp only [] <;>
        try (exact hB _ _ _ _ _ _ hs hE)
      rename_i te ov
      by_cases hp : te.isPtr = true
      · simp only [if_pos hp]
        exact hB _ _ _ _ _ _ hs hE
      · simp only [if_neg hp]
        cases ov with
        | none =>
          simp only []
          rw [capOut_pure _ _ _ hE]
        | some iv =>
          simp only []
          exact hB _ _ _ _ _ _
            (by simp only [GoVal.ptr.sizeOf_spec, Option.some.sizeOf_spec] at hs; omega) hE
    have hT : (∀ path dstName t v dst opts E m, sizeOf v ≤ N → (E.length ≤ m ∨ m = 0) →
        Agg.toStarlarkValue path dstName t v dst opts ⟨E, m⟩ =
          capOut E m (Agg.toStarlarkValue path dstName t v dst opts ⟨[], 0⟩)) := by
      intro path dstName t v dst opts E m hs hE
      rw [Agg.toStarlarkValue.eq_def]
      conv_rhs => rw [Agg.toStarlarkValue.eq_def]
      rcases hu : Agg.convertGoValue path t v opts ⟨[], 0⟩ with ⟨⟨tr1, z⟩, r1⟩
      have hz : z = 0 := by
        have h := hC path t v opts [] 0 hs (Or.inr rfl)
        rw [capOut_empty_zero, hu] at h
        exact congrArg (fun p => p.1.maxErrs) h
      subst hz
      rw [hC path t v opts E m hs hE, hu]
      cases r1 <;> by_cases hc : E.length + tr1.length ≤ m ∨ m = 0 <;>
        simp [capOut, hc]
    have hF : (∀ path f v dst E m, sizeOf v ≤ N → (E.length ≤ m ∨ m = 0) →
        Agg.encodeField path f v dst ⟨E, m⟩ =
          capOut E m (Agg.encodeField path f v dst ⟨[], 0⟩)) := by
      intro path f v dst E m hs hE
      rcases f with ⟨fname, ftag, fexp, fanon, ftyp⟩
      rw [Agg.encodeField.eq_def]
      conv_rhs => rw [Agg.encodeField.eq_def]
      simp only []
      by_cases h1 : ¬fexp = true ∨ (cutComma ftag).1 = "-"
      · simp only [if_pos h1]
        rw [capOut_pure _ _ _ hE]
      · simp only [if_neg h1]
        by_cases h2 : (cutComma ftag).1 = "" ∧ fanon = true
        · simp only [if_pos h2]
          by_cases h3 : ¬isStructOrPtrType ftyp = true
          · simp only [if_pos h3]
            rw [recordErr_leaf_empty]
            exact recordErr_sim E m _ _ hE
          · simp only [if_neg h3]
            cases ftyp <;> cases v <;> simp only [] <;>
              try (rw [capOut_pure _ _ _ hE]; done)
            rename_i sfs svs
            simp only [GoVal.strct.sizeOf_spec] at hs
            obtain ⟨_, _, _, _, ihW, _, _, _⟩ := ih (N - 1) (by omega)
            exact ihW _ _ _ _ _ _ (by omega) hE
        · simp only [if_neg h2]
          exact hT _ _ _ _ _ _ _ _ hs hE
    have hW : (∀ path flds vals dst E m, sizeOf vals ≤ N → (E.length ≤ m ∨ m = 0) →
        Agg.walkStructEncode path flds vals dst ⟨E, m⟩ =
          capOut E m (Agg.walkStructEncode path flds vals dst ⟨[], 0⟩)) := by
      intro path flds vals dst E m hs hE
      cases flds with
      | nil =>
        rw [Agg.walkStructEncode.eq_def]
        conv_rhs => rw [Agg.walkStructEncode.eq_def]
        simp only []
        rw [capOut_pure _ _ _ hE]
      | cons f fs =>
        cases vals with
        | nil =>
          rw [Agg.walkStructEncode.eq_def]
          conv_rhs => rw [Agg.walkStructEncode.eq_def]
          simp only []
          rw [capOut_pure _ _ _ hE]
        | cons v vs =>
          simp only [List.cons.sizeOf_spec] at hs
          obtain ⟨_, _, _, ihF, ihW, _, _, _⟩ := ih (N - 1) (by omega)
          rw [Agg.walkStructEncode.eq_def]
          conv_rhs => rw [Agg.walkStructEncode.eq_def]
          simp only []
          rcases hu : Agg.encodeField path f v dst ⟨[], 0⟩ with ⟨⟨tr1, z⟩, r1⟩
          have hz : z = 0 := by
            have h := ihF path f v dst [] 0 (by omega) (Or.inr rfl)
            rw [capOut_empty_zero, hu] at h
            exact congrArg (fun p => p.1.maxErrs) h
          subst hz
          rw [ihF path f v dst E m (by omega) hE, hu]
          cases r1 with
          | none =>
            by_cases hc : E.length + tr1.length ≤ m ∨ m = 0 <;> simp [capOut, hc]
          | some dst1 =>
            rcases hu2 : Agg.walkStructEncode path fs vs dst1 ⟨[], 0⟩ with ⟨⟨tr2, z2⟩, r2⟩
            have hz2 : z2 = 0 := by
              have h := ihW path fs vs dst1 [] 0 (by omega) (Or.inr rfl)
              rw [capOut_empty_zero, hu2] at h
              exact congrArg (fun p => p.1.maxErrs) h
            subst hz2
            by_cases hc : E.length + tr1.length ≤ m ∨ m = 0
            · have hE2 : (E ++ tr1).length ≤ m ∨ m = 0 := by
                simp only [List.length_append]; omega
              rw [show capOut E m ((⟨tr1, 0⟩ : EncSt), some dst1) = (⟨E ++ tr1, m⟩, some dst1)
                from by simp [capOut, hc]]
              simp only []
              rw [ihW path fs vs dst1 (E ++ tr1) m (by omega) hE2, hu2,
                  ihW path fs vs dst1 tr1 0 (by omega) (Or.inr rfl), hu2, capOut_zero]
              exact capOut_seq E tr1 tr2 m 0 0 r2 hc
            · simp only []
              rw [ihW path fs vs dst1 tr1 0 (by omega) (Or.inr rfl), hu2, capOut_zero,
                  @capOut_seq_abort (List (String × SVal)) (List (String × SVal)) E tr1 tr2 m 0 0 r2 hc]
              simp [capOut, hc]
    have hL : (∀ path i et elems opts E m, sizeOf elems ≤ N → (E.length ≤ m ∨ m = 0) →
        Agg.encodeElems path i et elems opts ⟨E, m⟩ =
          capOut E m (Agg.encodeElems path i et elems opts ⟨[], 0⟩)) := by
      intro path i et elems opts E m hs hE
      cases elems with
      | nil =>
        rw [Agg.encodeElems.eq_def]
        conv_rhs => rw [Agg.encodeElems.eq_def]
        simp only []
        rw [capOut_pure _ _ _ hE]
      | cons e es =>
        simp only [List.cons.sizeOf_spec] at hs
        obtain ⟨_, ihC, _, _, _, ihL, _, _⟩ := ih (N - 1) (by omega)
        rw [Agg.encodeElems.eq_def]
        conv_rhs => rw [Agg.encodeElems.eq_def]
        simp only []
        rcases hu : Agg.convertGoValue (indexPath path i) et e (tagShift opts) ⟨[], 0⟩
          with ⟨⟨tr1, z⟩, r1⟩
        have hz : z = 0 := by
          have h := ihC (indexPath path i) et e (tagShift opts) [] 0 (by omega) (Or.inr rfl)
          rw [capOut_empty_zero, hu] at h
          exact congrArg (fun p => p.1.maxErrs) h
        subst hz
        rw [ihC (indexPath path i) et e (tagShift opts) E m (by omega) hE, hu]
        cases r1 with
        | none =>
          by_cases hc : E.length + tr1.length ≤ m ∨ m = 0 <;> simp [capOut, hc]
        | some s =>
          rcases hu2 : Agg.encodeElems path (i + 1) et es opts ⟨[], 0⟩ with ⟨⟨tr2, z2⟩, r2⟩
          have hz2 : z2 = 0 := by
            have h := ihL path (i + 1) et es opts [] 0 (by omega) (Or.inr rfl)
            rw [capOut_empty_zero, hu2] at h
            exact congrArg (fun p => p.1.maxErrs) h
          subst hz2
          by_cases hc : E.length + tr1.length ≤ m ∨ m = 0
          · have hE2 : (E ++ tr1).length ≤ m ∨ m = 0 := by
              simp only [List.length_append]; omega
            rw [show capOut E m ((⟨tr1, 0⟩ : EncSt), some s) = (⟨E ++ tr1, m⟩, some s)
              from by simp [capOut, hc]]
            simp only []
            rw [ihL path (i + 1) et es opts (E ++ tr1) m (by omega) hE2, hu2,
                ihL path (i + 1) et es opts tr1 0 (by omega) (Or.inr rfl), hu2, capOut_zero]
            cases r2 with
            | none =>
              rw [← capOut_seq E tr1 tr2 m 0 0 (@Option.none (List SVal)) hc]
              by_cases hc2 : E.length + tr1.length + tr2.length ≤ m ∨ m = 0 <;>
                simp [capOut, List.length_append, hc2]
            | some rest =>
              rw [← capOut_seq E tr1 tr2 m 0 0 (some (s :: rest)) hc]
              by_cases hc2 : E.length + tr1.length + tr2.length ≤ m ∨ m = 0 <;>
                simp [capOut, List.length_append, hc2]
          · simp only []
            rw [ihL path (i + 1) et es opts tr1 0 (by omega) (Or.inr rfl), hu2, capOut_zero]
            cases r2 <;>
              simp only [] <;>
              rw [@capOut_seq_abort (List SVal) (List SVal) E tr1 tr2 m 0 0 _ hc] <;>
              simp [capOut, hc]
    have hS : (∀ path i et elems opts acc E m, sizeOf elems ≤ N → (E.length ≤ m ∨ m = 0) →
        Agg.encodeSetElems path i et elems opts acc ⟨E, m⟩ =
          capOut E m (Agg.encodeSetElems path i et elems opts acc ⟨[], 0⟩)) := by
      intro path i et elems opts acc E m hs hE
      cases elems with
      | nil =>
        rw [Agg.encodeSetElems.eq_def]
        conv_rhs => rw [Agg.encodeSetElems.eq_def]
        simp only []
        rw [capOut_pure _ _ _ hE]
      | cons e es =>
        simp only [List.cons.sizeOf_spec] at hs
        obtain ⟨_, ihC, _, _, _, _, ihS, _⟩ := ih (N - 1) (by omega)
        rw [Agg.encodeSetElems.eq_def]
        conv_rhs => rw [Agg.encodeSetElems.eq_def]
        simp only []
        rcases hu : Agg.convertGoValue (indexPath path i) et e (tagShift opts) ⟨[], 0⟩
          with ⟨⟨tr1, z⟩, r1⟩
        have hz : z = 0 := by
          have h := ihC (indexPath path i) et e (tagShift opts) [] 0 (by omega) (Or.inr rfl)
          rw [capOut_empty_zero, hu] at h
          exact congrArg (fun p => p.1.maxErrs) h
        subst hz
        rw [ihC (indexPath path i) et e (tagShift opts) E m (by omega) hE, hu]
        cases r1 with
        | none =>
          by_cases hc : E.length + tr1.length ≤ m ∨ m = 0 <;> simp [capOut, hc]
        | some s =>
          by_cases hc : E.length + tr1.length ≤ m ∨ m = 0
          · rw [show capOut E m ((⟨tr1, 0⟩ : EncSt), some s) = (⟨E ++ tr1, m⟩, some s)
              from by simp [capOut, hc]]
            simp only []
            cases hins : setInsert acc s with
            | some acc1 =>
              simp only []
              rcases hu2 : Agg.encodeSetElems path (i + 1) et es opts acc1 ⟨[], 0⟩
                with ⟨⟨tr2, z2⟩, r2⟩
              have hz2 : z2 = 0 := by
                have h := ihS path (i + 1) et es opts acc1 [] 0 (by omega) (Or.inr rfl)
                rw [capOut_empty_zero, hu2] at h
                exact congrArg (fun p => p.1.maxErrs) h
              subst hz2
              rw [ihS path (i + 1) et es opts acc1 (E ++ tr1) m (by omega)
                    (by simp only [List.length_append]; omega), hu2,
                  ihS path (i + 1) et es opts acc1 tr1 0 (by omega) (Or.inr rfl), hu2,
                  capOut_zero]
              exact capOut_seq E tr1 tr2 m 0 0 r2 hc
            | none =>
              simp only []
              rw [show Agg.recordErr ⟨tr1, 0⟩ (.containerErr (indexPath path i))
                    = (⟨tr1 ++ [.containerErr (indexPath path i)], 0⟩, false)
                  from by simp [Agg.recordErr]]
              simp only [Bool.false_eq_true, if_false]
              rcases hu2 : Agg.encodeSetElems path (i + 1) et es opts acc ⟨[], 0⟩
                with ⟨⟨tr2, z2⟩, r2⟩
              have hz2 : z2 = 0 := by
                have h := ihS path (i + 1) et es opts acc [] 0 (by omega) (Or.inr rfl)
                rw [capOut_empty_zero, hu2] at h
                exact congrArg (fun p => p.1.maxErrs) h
              subst hz2
              rw [ihS path (i + 1) et es opts acc
                    (tr1 ++ [AErr.containerErr (indexPath path i)]) 0 (by omega) (Or.inr rfl),
                  hu2, capOut_zero]
              by_cases hc2 : 0 < m ∧ (E ++ tr1).length = m
              · rw [show Agg.recordErr ⟨E ++ tr1, m⟩ (.containerErr (indexPath path i))
                      = (⟨(E ++ tr1) ++ [.maxErrors], m⟩, true)
                    from by simp [Agg.recordErr, hc2]]
                simp only []
                simp only [if_true, Bool.false_eq_true, if_false]
                rw [List.append_assoc tr1 [AErr.containerErr (indexPath path i)] tr2,
                    capOut_cap_hit E tr1 ([AErr.containerErr (indexPath path i)] ++ tr2)
                      m 0 r2 hc2.1
                      (by simp only [List.length_append, List.length_singleton] at hc2 ⊢; omega) (by simp)]
              · rw [show Agg.recordErr ⟨E ++ tr1, m⟩ (.containerErr (indexPath path i))
                      = (⟨(E ++ tr1) ++ [.containerErr (indexPath path i)], m⟩, false)
                    from by rw [Agg.recordErr, if_neg (by simpa using hc2)]]
                simp only [Bool.false_eq_true, if_false]
                rw [ihS path (i + 1) et es opts acc
                      ((E ++ tr1) ++ [AErr.containerErr (indexPath path i)]) m (by omega)
                      (by simp only [List.length_append, List.length_singleton] at hc2 hE ⊢; omega), hu2]
                rw [List.append_assoc E tr1 [AErr.containerErr (indexPath path i)]]
                exact capOut_seq E (tr1 ++ [AErr.containerErr (indexPath path i)]) tr2 m 0 0 r2
                  (by simp only [List.length_append, List.length_singleton] at hc2 ⊢; omega)
          · simp only []
            cases hins : setInsert acc s with
            | some acc1 =>
              simp only []
              rcases hu2 : Agg.encodeSetElems path (i + 1) et es opts acc1 ⟨[], 0⟩
                with ⟨⟨tr2, z2⟩, r2⟩
              have hz2 : z2 = 0 := by
                have h := ihS path (i + 1) et es opts acc1 [] 0 (by omega) (Or.inr rfl)
                rw [capOut_empty_zero, hu2] at h
                exact congrArg (fun p => p.1.maxErrs) h
              subst hz2
              rw [ihS path (i + 1) et es opts acc1 tr1 0 (by omega) (Or.inr rfl), hu2,
                  capOut_zero,
                  @capOut_seq_abort (List SVal) (List SVal) E tr1 tr2 m 0 0 r2 hc]
              simp [capOut, hc]
            | none =>
              simp only []
              rw [show Agg.recordErr ⟨tr1, 0⟩ (.containerErr (indexPath path i))
                    = (⟨tr1 ++ [.containerErr (indexPath path i)], 0⟩, false)
                  from by simp [Agg.recordErr]]
              simp only [Bool.false_eq_true, if_false]
              rcases hu2 : Agg.encodeSetElems path (i + 1) et es opts acc ⟨[], 0⟩
                with ⟨⟨tr2, z2⟩, r2⟩
              have hz2 : z2 = 0 := by
                have h := ihS path (i + 1) et es opts acc [] 0 (by omega) (Or.inr rfl)
                rw [capOut_empty_zero, hu2] at h
                exact congrArg (fun p => p.1.maxErrs) h
              subst hz2
              rw [ihS path (i + 1) et es opts acc
                    (tr1 ++ [AErr.containerErr (indexPath path i)]) 0 (by omega) (Or.inr rfl),
                  hu2, capOut_zero,
                  List.append_assoc tr1 [AErr.containerErr (indexPath path i)] tr2,
                  @capOut_seq_abort (List SVal) (List SVal) E tr1
                    ([AErr.containerErr (indexPath path i)] ++ tr2) m 0 0 r2 hc]
              simp [capOut, hc]
    have hM : (∀ path kt entries opts acc E m, sizeOf entries ≤ N → (E.length ≤ m ∨ m = 0) →
        Agg.encodeSetMap path kt entries opts acc ⟨E, m⟩ =
          capOut E m (Agg.encodeSetMap path kt entries opts acc ⟨[], 0⟩)) := by
      intro path kt entries opts acc E m hs hE
      cases entries with
      | nil =>
        rw [Agg.encodeSetMap.eq_def]
        conv_rhs => rw [Agg.encodeSetMap.eq_def]
        simp only []
        rw [capOut_pure _ _ _ hE]
      | cons p rest =>
        rcases p with ⟨k, vv⟩
        simp only [List.cons.sizeOf_spec, Prod.mk.sizeOf_spec] at hs
        obtain ⟨_, ihC, _, _, _, _, _, ihM⟩ := ih (N - 1) (by omega)
        rw [Agg.encodeSetMap.eq_def]
        conv_rhs => rw [Agg.encodeSetMap.eq_def]
        simp only []
        cases vv <;> try (exact ihM path kt rest opts acc E m (by omega) hE)
        rename_i b
        cases b with
        | false =>
          simp only []
          exact ihM path kt rest opts acc E m (by omega) hE
        | true =>
          simp only []
          rcases hu : Agg.convertGoValue (path ++ "[" ++ goValShow k ++ "]") kt k
              (tagShift opts) ⟨[], 0⟩ with ⟨⟨tr1, z⟩, r1⟩
          have hz : z = 0 := by
            have h := ihC (path ++ "[" ++ goValShow k ++ "]") kt k (tagShift opts) [] 0
              (by omega) (Or.inr rfl)
            rw [capOut_empty_zero, hu] at h
            exact congrArg (fun p => p.1.maxErrs) h
          subst hz
          rw [ihC (path ++ "[" ++ goValShow k ++ "]") kt k (tagShift opts) E m
                (by omega) hE, hu]
          cases r1 with
          | none =>
            by_cases hc : E.length + tr1.length ≤ m ∨ m = 0 <;> simp [capOut, hc]
          | some s =>
            by_cases hc : E.length + tr1.length ≤ m ∨ m = 0
            · rw [show capOut E m ((⟨tr1, 0⟩ : EncSt), some s) = (⟨E ++ tr1, m⟩, some s)
                from by simp [capOut, hc]]
              simp only []
              cases hins : setInsert acc s with
              | some acc1 =>
                simp only []
                rcases hu2 : Agg.encodeSetMap path kt rest opts acc1 ⟨[], 0⟩
                  with ⟨⟨tr2, z2⟩, r2⟩
                have hz2 : z2 = 0 := by
                  have h := ihM path kt rest opts acc1 [] 0 (by omega) (Or.inr rfl)
                  rw [capOut_empty_zero, hu2] at h
                  exact congrArg (fun p => p.1.maxErrs) h
                subst hz2
                rw [ihM path kt rest opts acc1 (E ++ tr1) m (by omega)
                      (by simp only [List.length_append]; omega), hu2,
                    ihM path kt rest opts acc1 tr1 0 (by omega) (Or.inr rfl), hu2,
                    capOut_zero]
                exact capOut_seq E tr1 tr2 m 0 0 r2 hc
              | none =>
                simp only []
                rw [show Agg.recordErr ⟨tr1, 0⟩
                      (.containerErr (path ++ "[" ++ goValShow k ++ "]"))
                      = (⟨tr1 ++ [.containerErr (path ++ "[" ++ goValShow k ++ "]")], 0⟩,
                          false)
                    from by simp [Agg.recordErr]]
                simp only [Bool.false_eq_true, if_false]
                rcases hu2 : Agg.encodeSetMap path kt rest opts acc ⟨[], 0⟩
                  with ⟨⟨tr2, z2⟩, r2⟩
                have hz2 : z2 = 0 := by
                  have h := ihM path kt rest opts acc [] 0 (by omega) (Or.inr rfl)
                  rw [capOut_empty_zero, hu2] at h
                  exact congrArg (fun p => p.1.maxErrs) h
                subst hz2
                rw [ihM path kt rest opts acc
                      (tr1 ++ [AErr.containerErr (path ++ "[" ++ goValShow k ++ "]")]) 0
                      (by omega) (Or.inr rfl), hu2, capOut_zero]
                by_cases hc2 : 0 < m ∧ (E ++ tr1).length = m
                · rw [show Agg.recordErr ⟨E ++ tr1, m⟩
                        (.containerErr (path ++ "[" ++ goValShow k ++ "]"))
                        = (⟨(E ++ tr1) ++ [.maxErrors], m⟩, true)
                      from by simp [Agg.recordErr, hc2]]
                  simp only [if_true, Bool.false_eq_true, if_false]
                  rw [List.append_assoc tr1
                        [AErr.containerErr (path ++ "[" ++ goValShow k ++ "]")] tr2,
                      capOut_cap_hit E tr1
                        ([AErr.containerErr (path ++ "[" ++ goValShow k ++ "]")] ++ tr2)
                        m 0 r2 hc2.1
                        (by simp only [List.length_append, List.length_singleton] at hc2 ⊢;
                            omega)
                        (by simp)]
                · rw [show Agg.recordErr ⟨E ++ tr1, m⟩
                        (.containerErr (path ++ "[" ++ goValShow k ++ "]"))
                        = (⟨(E ++ tr1) ++
                            [.containerErr (path ++ "[" ++ goValShow k ++ "]")], m⟩, false)
                      from by rw [Agg.recordErr, if_neg (by simpa using hc2)]]
                  simp only [Bool.false_eq_true, if_false]
                  rw [ihM path kt rest opts acc
                        ((E ++ tr1) ++
                          [AErr.containerErr (path ++ "[" ++ goValShow k ++ "]")]) m
                        (by omega)
                        (by simp only [List.length_append, List.length_singleton]
                              at hc2 hE ⊢; omega), hu2]
                  rw [List.append_assoc E tr1
                        [AErr.containerErr (path ++ "[" ++ goValShow k ++ "]")]]
                  exact capOut_seq E
                    (tr1 ++ [AErr.containerErr (path ++ "[" ++ goValShow k ++ "]")]) tr2
                    m 0 0 r2
                    (by simp only [List.length_append, List.length_singleton] at hc2 ⊢;
                        omega)
            · simp only []
              cases hins : setInsert acc s with
              | some acc1 =>
                simp only []
                rcases hu2 : Agg.encodeSetMap path kt rest opts acc1 ⟨[], 0⟩
                  with ⟨⟨tr2, z2⟩, r2⟩
                have hz2 : z2 = 0 := by
                  have h := ihM path kt rest opts acc1 [] 0 (by omega) (Or.inr rfl)
                  rw [capOut_empty_zero, hu2] at h
                  exact congrArg (fun p => p.1.maxErrs) h
                subst hz2
                rw [ihM path kt rest opts acc1 tr1 0 (by omega) (Or.inr rfl), hu2,
                    capOut_zero,
                    @capOut_seq_abort (List SVal) (List SVal) E tr1 tr2 m 0 0 r2 hc]
                simp [capOut, hc]
              | none =>
                simp only []
                rw [show Agg.recordErr ⟨tr1, 0⟩
                      (.containerErr (path ++ "[" ++ goValShow k ++ "]"))
                      = (⟨tr1 ++ [.containerErr (path ++ "[" ++ goValShow k ++ "]")], 0⟩,
                          false)
                    from by simp [Agg.recordErr]]
                simp only [Bool.false_eq_true, if_false]
                rcases hu2 : Agg.encodeSetMap path kt rest opts acc ⟨[], 0⟩
                  with ⟨⟨tr2, z2⟩, r2⟩
                have hz2 : z2 = 0 := by
                  have h := ihM path kt rest opts acc [] 0 (by omega) (Or.inr rfl)
                  rw [capOut_empty_zero, hu2] at h
                  exact congrArg (fun p => p.1.maxErrs) h
                subst hz2
                rw [ihM path kt rest opts acc
                      (tr1 ++ [AErr.containerErr (path ++ "[" ++ goValShow k ++ "]")]) 0
                      (by omega) (Or.inr rfl), hu2, capOut_zero,
                    List.append_assoc tr1
                      [AErr.containerErr (path ++ "[" ++ goValShow k ++ "]")] tr2,
                    @capOut_seq_abort (List SVal) (List SVal) E tr1
                      ([AErr.containerErr (path ++ "[" ++ goValShow k ++ "]")] ++ tr2)
                      m 0 0 r2 hc]
                simp [capOut, hc]
    exact ⟨hB, hC, hT, hF, hW, hL, hS, hM⟩


theorem recordErrDecoderFold_spec : ∀ (es errs : List AErr) (n : Nat), 0 < n →
    errs.length < n → n ≤ errs.length + es.length →
    recordErrDecoderFold errs n es =
      (errs ++ es.take (n - errs.length) ++ [.maxErrors], true) := by
  intro es
  induction es with
  | nil =>
    intro errs n h1 h2 h3
    simp only [List.length_nil, Nat.add_zero] at h3
    omega
  | cons e es ihe =>
    intro errs n h1 h2 h3
    rw [recordErrDecoderFold]
    simp only [recordErrDecoder]
    by_cases hc : n ≤ (errs ++ [e]).length
    · rw [if_pos (show 0 < n ∧ n ≤ (errs ++ [e]).length from ⟨h1, hc⟩)]
      have hn1 : n = errs.length + 1 := by
        simp only [List.length_append, List.length_singleton] at hc
        omega
      rw [show n - errs.length = 1 from by omega]
      simp
    · rw [if_neg (show ¬(0 < n ∧ n ≤ (errs ++ [e]).length) from by
            intro h; exact hc h.2)]
      simp only [Bool.false_eq_true, if_false]
      rw [ihe (errs ++ [e]) n h1
            (by simp only [List.length_append, List.length_singleton]
                simp only [List.length_append, List.length_singleton] at hc; omega)
            (by simp only [List.length_append, List.length_singleton, List.length_cons]
                  at h3 ⊢
                omega)]
      have hk : n - errs.length = (n - (errs.length + 1)) + 1 := by
        simp only [List.length_append, List.length_singleton] at hc
        omega
      rw [hk, List.take_succ_cons]
      simp

/-- C4: with a configured cap `n > 0` and an input whose traversal produces
more than `n` field failures, the encoder's collected error list is exactly
the first `n` failures (in field-declaration order, as produced by the
uncapped traversal) followed by the "maximum number of errors reached"
sentinel — `n + 1` entries in all — and the traversal aborts; the decoder's
`recordErr`, fed the same overflowing failure sequence, collects the same
truncated list and aborts as well. -/
theorem c4_error_cap_truncation (flds : List FieldT) (vals : List GoVal)
    (dst : List (String × SVal)) (n z : Nat) (tr : List AErr)
    (r : Option (List (String × SVal))) (es : List AErr)
    (hn : 0 < n)
    (h0 : Agg.ToStarlark flds vals dst 0 = (⟨tr, z⟩, r))
    (htr : n < tr.length) (hes : n ≤ es.length) :
    Agg.ToStarlark flds vals dst n =
      (⟨List.take n tr ++ [AErr.maxErrors], n⟩, Option.none) ∧
    (List.take n tr ++ [AErr.maxErrors]).length = n + 1 ∧
    recordErrDecoderFold [] n es = (List.take n es ++ [AErr.maxErrors], true) := by
  have hW := (aggSim (sizeOf vals)).2.2.2.2.1
  have h := hW "" flds vals dst [] n (le_refl _) (Or.inl (by simp))
  rw [Agg.ToStarlark] at h0
  rw [Agg.ToStarlark, h, h0]
  refine ⟨?_, ?_, ?_⟩
  · unfold capOut
    rw [if_neg (by simp only [List.length_nil]; omega)]
    simp
  · simp only [List.length_append, List.length_take, List.length_singleton]
    omega
  · have hf := recordErrDecoderFold_spec es [] n hn (by simp only [List.length_nil]; omega)
      (by simp only [List.length_nil]; omega)
    simpa using hf

/-- Witness for C4 at a concrete input: two unsupported (chan) fields and a
cap of 1 overflow the cap; the capped encode returns the first type error
plus the sentinel and aborts, and the decoder-side fold agrees. -/
theorem c4_error_cap_truncation_witness :
    Agg.ToStarlark [.mk "F1" "" true false .chan, .mk "F2" "" true false .chan]
        [.chan, .chan] [] 1 =
      (⟨[AErr.typeErr "F1" false, AErr.maxErrors], 1⟩, Option.none) ∧
    recordErrDecoderFold [] 1 [AErr.typeErr "F1" false, AErr.typeErr "F2" false] =
      ([AErr.typeErr "F1" false, AErr.maxErrors], true) := by
  have h0 : Agg.ToStarlark [.mk "F1" "" true false .chan, .mk "F2" "" true false .chan]
      [.chan, .chan] [] 0 =
      (⟨[AErr.typeErr "F1" false, AErr.typeErr "F2" false], 0⟩,
        some [("F1", SVal.none), ("F2", SVal.none)]) := by
    rw [Agg.ToStarlark, Agg.walkStructEncode.eq_def]
    simp only []
    rw [Agg.encodeField.eq_def]
    simp only [show cutComma "" = ("", "") from by decide]
    rw [if_neg (by simp), if_neg (by simp)]
    rw [Agg.toStarlarkValue.eq_def, Agg.convertGoValue.eq_def]
    simp only []
    rw [Agg.convertGoValueBase.eq_def]
    simp only [Agg.recordErr]
    norm_num [joinPath, dictSet, splitOpts]
    rw [Agg.walkStructEncode.eq_def]
    simp only []
    rw [Agg.encodeField.eq_def]
    simp only [show cutComma "" = ("", "") from by decide]
    rw [if_neg (by simp), if_neg (by simp)]
    rw [Agg.toStarlarkValue.eq_def, Agg.convertGoValue.eq_def]
    simp only []
    rw [Agg.convertGoValueBase.eq_def]
    simp [Agg.recordErr, joinPath, dictSet]
    rw [Agg.walkStructEncode.eq_def]
  have h := c4_error_cap_truncation
    [.mk "F1" "" true false .chan, .mk "F2" "" true false .chan] [.chan, .chan] [] 1 0
    [AErr.typeErr "F1" false, AErr.typeErr "F2" false]
    (some [("F1", SVal.none), ("F2", SVal.none)])
    [AErr.typeErr "F1" false, AErr.typeErr "F2" false]
    (by decide) h0 (by decide) (by decide)
  refine ⟨?_, ?_⟩
  · have h1 := h.1
    simpa using h1
  · have h3 := h.2.2
    simpa using h3

theorem convertGoValue_scalar (path : String) (t : GoTyp) (v : GoVal)
    (h : scalarOk t v = true) :
    convertGoValue path t v (splitOpts "") = .ok (encScalar v) := by
  cases t <;> cases v <;> simp only [scalarOk] at h <;> try (simp at h)
  case bool.bool b =>
    rw [convertGoValue.eq_def]
    simp only []
    rw [convertGoValueBase.eq_def]
    simp only []
    rfl
  case int.int w w' i =>
    rw [convertGoValue.eq_def]
    simp only []
    rw [convertGoValueBase.eq_def]
    simp only []
    rfl
  case uint.uint w w' u =>
    rw [convertGoValue.eq_def]
    simp only []
    rw [convertGoValueBase.eq_def]
    simp only []
    rfl
  case float64.float64 f =>
    rw [convertGoValue.eq_def]
    simp only []
    rw [convertGoValueBase.eq_def]
    simp only []
    rfl
  case str.str s =>
    rw [convertGoValue.eq_def]
    simp only []
    rw [convertGoValueBase.eq_def]
    simp only []
    rw [if_neg (by decide), if_neg (show ¬tagCurrent (splitOpts "") = "asbytes" from by decide)]
    rfl

theorem fromStarlarkValue_scalar (path : String) (t : GoTyp) (v z : GoVal)
    (h : scalarOk t v = true) :
    fromStarlarkValue path (encScalar v) t z = .ok v := by
  cases t <;> cases v <;> simp only [scalarOk] at h <;> try (simp at h)
  case bool.bool b =>
    rw [fromStarlarkValue.eq_def]
    rw [if_neg (by simp [isStarOrPtrStar])]
    simp only [encScalar]
    simp [setFieldBool]
  case int.int w w' i =>
    obtain ⟨⟨hw, h1⟩, h2⟩ := h
    subst hw
    rw [fromStarlarkValue.eq_def]
    rw [if_neg (by simp [isStarOrPtrStar])]
    simp only [encScalar]
    simp [setFieldInt, numericKind, setFieldIntCore, h1, h2]
  case uint.uint w w' u =>
    obtain ⟨hw, h1⟩ := h
    subst hw
    have h2 : (u : Int) ≤ (w.maxVal : Int) := by exact_mod_cast h1
    rw [fromStarlarkValue.eq_def]
    rw [if_neg (by simp [isStarOrPtrStar])]
    simp only [encScalar]
    simp [setFieldInt, numericKind, setFieldIntCore, h2]
  case float64.float64 f =>
    rw [fromStarlarkValue.eq_def]
    rw [if_neg (by simp [isStarOrPtrStar])]
    simp only [encScalar]
    simp [setFieldFloat, numericKind, setFieldFloatCore]
  case str.str s =>
    rw [fromStarlarkValue.eq_def]
    rw [if_neg (by simp [isStarOrPtrStar])]
    simp only [encScalar]
    simp [setFieldBytesOrString, isByteSliceType, GoTyp.isStr]

theorem dictGet_dictSet (d : List (String × SVal)) (k1 k : String) (v : SVal) :
    dictGet (dictSet d k1 v) k = if k1 = k then some v else dictGet d k := by
  induction d with
  | nil => simp [dictSet, dictGet]
  | cons p rest ih =>
    obtain ⟨k0, v0⟩ := p
    by_cases h0 : k0 = k1
    · subst h0
      rw [dictSet, if_pos rfl]
      by_cases h1 : k0 = k
      · subst h1
        simp [dictGet]
      · rw [dictGet, if_neg h1, dictGet, if_neg h1, if_neg (fun h => h1 h)]
    · rw [dictSet, if_neg h0]
      by_cases h1 : k0 = k
      · subst h1
        rw [dictGet, if_pos rfl, dictGet, if_pos rfl,
            if_neg (fun h => h0 h.symm)]
      · rw [dictGet, if_neg h1, dictGet, if_neg h1, ih]

theorem encodeDict_get_frozen : ∀ (flds : List FieldT) (vals : List GoVal)
    (d : List (String × SVal)) (k : String), k ∉ flds.map FieldT.name →
    dictGet (encodeDict flds vals d) k = dictGet d k := by
  intro flds
  induction flds with
  | nil => intro vals d k hk; cases vals <;> rfl
  | cons f fs ih =>
    intro vals d k hk
    obtain ⟨fname, ftag, fexp, fanon, ftyp⟩ := f
    cases vals with
    | nil => rfl
    | cons v vs =>
      rw [encodeDict]
      simp only [List.map_cons, List.mem_cons] at hk
      push_neg at hk
      rw [ih vs _ k hk.2, dictGet_dictSet, if_neg (fun h => hk.1 h.symm)]

theorem encodeDict_lookup : ∀ (flds : List FieldT) (vals : List GoVal)
    (d : List (String × SVal)),
    (flds.map FieldT.name).Nodup →
    (∀ k, k ∈ flds.map FieldT.name → dictGet d k = Option.none) →
    ∀ f v, (f, v) ∈ List.zip flds vals →
      dictGet (encodeDict flds vals d) f.name = some (encScalar v) := by
  intro flds
  induction flds with
  | nil => intro vals d hnd hfresh f v hm; simp [List.zip] at hm
  | cons f0 fs ih =>
    intro vals d hnd hfresh f v hm
    cases vals with
    | nil => simp [List.zip] at hm
    | cons v0 vs =>
      obtain ⟨fname, ftag, fexp, fanon, ftyp⟩ := f0
      rw [List.zip_cons_cons, List.mem_cons] at hm
      simp only [List.map_cons, List.nodup_cons] at hnd
      rw [encodeDict]
      cases hm with
      | inl h0 =>
        obtain ⟨hf, hv⟩ := Prod.mk.injEq .. ▸ h0
        subst hf
        subst hv
        rw [encodeDict_get_frozen fs vs _ _ (by simpa using hnd.1)]
        simp only [FieldT.name]
        rw [dictGet_dictSet, if_pos rfl]
      | inr h0 =>
        refine ih vs (dictSet d fname (encScalar v0)) hnd.2 ?_ f v h0
        intro k hk
        rw [dictGet_dictSet, if_neg ?_, hfresh k (by simp [hk])]
        intro he
        subst he
        exact hnd.1 (by simpa using hk)

theorem walkStructEncode_scalar : ∀ (flds : List FieldT) (vals : List GoVal)
    (dst : List (String × SVal)), scalarFieldsOk flds vals = true →
    walkStructEncode "" flds vals dst = .ok (encodeDict flds vals dst) := by
  intro flds
  induction flds with
  | nil =>
    intro vals dst h
    cases vals with
    | nil => rw [walkStructEncode.eq_def]; rfl
    | cons v vs => simp [scalarFieldsOk] at h
  | cons f fs ih =>
    intro vals dst h
    obtain ⟨fname, ftag, fexp, fanon, ftyp⟩ := f
    cases vals with
    | nil => simp [scalarFieldsOk] at h
    | cons v vs =>
      simp only [scalarFieldsOk] at h
      simp at h
      obtain ⟨⟨⟨⟨h1, h2⟩, h3⟩, h4⟩, h5⟩ := h
      subst h1
      subst h2
      subst h3
      rw [walkStructEncode.eq_def]
      simp only [show cutComma "" = ("", "") from by decide]
      rw [if_neg (by simp), if_neg (by simp)]
      rw [toStarlarkValue.eq_def]
      rw [convertGoValue_scalar _ _ _ h4]
      simp only []
      rw [encodeDict]
      exact ih vs _ h5

theorem decodeField_scalar (path nm : String) (t : GoTyp) (v z : GoVal)
    (dict : List (String × SVal)) (ht : scalarOk t v = true)
    (hd : dictGet dict nm = some (encScalar v)) :
    decodeField path (.mk nm "" true false t) z dict = (v, true, Option.none) := by
  rw [decodeField.eq_def]
  simp only [show cutComma "" = ("", "") from by decide]
  rw [if_neg (by simp), if_neg (by simp)]
  simp only [reduceIte]
  split
  · rename_i sv h1
    simp only [show cutComma "" = ("", "") from by decide, reduceIte] at h1
    rw [hd] at h1
    injection h1 with h1
    subst h1
    rw [fromStarlarkValue_scalar _ _ _ _ ht]
  · rename_i h1
    simp only [show cutComma "" = ("", "") from by decide, reduceIte] at h1
    rw [hd] at h1
    simp at h1

theorem walkStructDecode_scalar : ∀ (flds : List FieldT) (vals zs : List GoVal)
    (dict : List (String × SVal)),
    scalarFieldsOk flds vals = true →
    zs.length = flds.length →
    (∀ f v, (f, v) ∈ List.zip flds vals → dictGet dict f.name = some (encScalar v)) →
    (walkStructDecode "" flds zs dict).1 = vals ∧
    (walkStructDecode "" flds zs dict).2.2 = Option.none := by
  intro flds
  induction flds with
  | nil =>
    intro vals zs dict h hlen hlook
    cases vals with
    | nil =>
      cases zs with
      | nil => rw [walkStructDecode.eq_def]; exact ⟨rfl, rfl⟩
      | cons _ _ => simp at hlen
    | cons _ _ => simp [scalarFieldsOk] at h
  | cons f fs ih =>
    intro vals zs dict h hlen hlook
    obtain ⟨fname, ftag, fexp, fanon, ftyp⟩ := f
    cases vals with
    | nil => simp [scalarFieldsOk] at h
    | cons v vs =>
      cases zs with
      | nil => simp at hlen
      | cons z zs1 =>
        simp only [scalarFieldsOk] at h
        simp at h
        obtain ⟨⟨⟨⟨h1, h2⟩, h3⟩, h4⟩, h5⟩ := h
        subst h1
        subst h2
        subst h3
        have hdf := decodeField_scalar "" fname ftyp v z dict h4
          (by
            have hx := hlook (.mk fname "" true false ftyp) v
              (by rw [List.zip_cons_cons]; exact List.mem_cons_self _ _)
            simpa [FieldT.name] using hx)
        have hrest := ih vs zs1 dict h5 (by simpa using hlen)
          (fun f1 v1 hm => hlook f1 v1 (by rw [List.zip_cons_cons]; exact List.mem_cons_of_mem _ hm))
        rw [walkStructDecode.eq_def]
        simp only [hdf]
        exact ⟨by simp [hrest.1], by simp [hrest.2]⟩

/-- C1 (amended, scalar fragment): for a record of exported, non-anonymous,
untagged fields with pairwise-distinct names, scalar types and well-formed
matching values, encoding into an empty dictionary succeeds and decoding
that dictionary into a fresh zero record restores exactly the original
values with no error. -/
theorem c1_round_trip_scalar (flds : List FieldT) (vals : List GoVal)
    (hok : scalarFieldsOk flds vals = true)
    (hnd : (flds.map FieldT.name).Nodup) :
    ToStarlark flds vals [] = .ok (encodeDict flds vals []) ∧
    FromStarlark flds (zeroFields flds) (encodeDict flds vals []) =
      (vals, Option.none) := by
  constructor
  · rw [ToStarlark]
    exact walkStructEncode_scalar flds vals [] hok
  · have hlen : (zeroFields flds).length = flds.length := by
      clear hok hnd
      induction flds with
      | nil => rfl
      | cons f fs ih =>
        obtain ⟨fname, ftag, fexp, fanon, ftyp⟩ := f
        simp [zeroFields, ih]
    have hlook := encodeDict_lookup flds vals [] hnd (fun k _ => rfl)
    have h := walkStructDecode_scalar flds vals (zeroFields flds)
      (encodeDict flds vals []) hok hlen hlook
    simp [FromStarlark, h.1, h.2]

/-- Witness for C1 (amended) at a concrete two-field scalar record. -/
theorem c1_round_trip_scalar_witness :
    ToStarlark [.mk "A" "" true false (.int .i64), .mk "B" "" true false .str]
        [.int .i64 5, .str "x"] [] =
      .ok (encodeDict [.mk "A" "" true false (.int .i64), .mk "B" "" true false .str]
        [.int .i64 5, .str "x"] []) ∧
    FromStarlark [.mk "A" "" true false (.int .i64), .mk "B" "" true false .str]
        (zeroFields [.mk "A" "" true false (.int .i64), .mk "B" "" true false .str])
        (encodeDict [.mk "A" "" true false (.int .i64), .mk "B" "" true false .str]
          [.int .i64 5, .str "x"] []) =
      ([.int .i64 5, .str "x"], Option.none) :=
  c1_round_trip_scalar
    [.mk "A" "" true false (.int .i64), .mk "B" "" true false .str]
    [.int .i64 5, .str "x"] (by decide) (by decide)

/-- Counterexample to C1 as stated: a supported set-shaped map field whose
entry has value `false` is dropped by the encoder (only `true` keys are
encoded into the Set), so decoding the encoding into a fresh record yields
an empty (allocated) map, not the original one-entry map. -/
theorem c1_counterexample_false_set_map_entry :
    ToStarlark [.mk "M" "" true false (.mapT .str .bool)]
        [.mapV false [(.str "b", .bool false)]] [] = .ok [("M", SVal.set [])] ∧
    FromStarlark [.mk "M" "" true false (.mapT .str .bool)]
        (zeroFields [.mk "M" "" true false (.mapT .str .bool)])
        [("M", SVal.set [])] = ([.mapV false []], Option.none) ∧
    GoVal.mapV false [] ≠ GoVal.mapV false [(.str "b", .bool false)] := by
  refine ⟨?_, ?_, by simp⟩
  · rw [ToStarlark, walkStructEncode.eq_def]
    simp only [show cutComma "" = ("", "") from by decide]
    rw [if_neg (by simp), if_neg (by simp)]
    rw [toStarlarkValue.eq_def, convertGoValue.eq_def]
    simp only []
    rw [convertGoValueBase.eq_def]
    simp only []
    rw [if_neg (by simp)]
    rw [if_pos (by decide)]
    rw [encodeSetMap.eq_def]
    simp only []
    rw [encodeSetMap.eq_def]
    simp only [Except.map]
    rw [dictSet]
    rw [walkStructEncode.eq_def]
    simp
  · have hdf : decodeField "" (.mk "M" "" true false (.mapT .str .bool))
        (GoVal.mapV true []) [("M", SVal.set [])] =
        (GoVal.mapV false [], true, Option.none) := by
      rw [decodeField.eq_def]
      simp only [show cutComma "" = ("", "") from by decide]
      rw [if_neg (by simp), if_neg (by simp)]
      simp only [reduceIte]
      split
      · rename_i sv h1
        try simp only [show cutComma "" = ("", "") from by decide, reduceIte] at h1
        rw [show dictGet [("M", SVal.set [])] "M" = some (SVal.set []) from by decide] at h1
        injection h1 with h1
        subst h1
        rw [fromStarlarkValue.eq_def]
        rw [if_neg (by simp [isStarOrPtrStar])]
        simp only []
        rw [setFieldSet.eq_def]
        simp only []
        rw [decodeSetMembers.eq_def]
        simp only [mapEntriesOf]
      · rename_i h1
        try simp only [show cutComma "" = ("", "") from by decide, reduceIte] at h1
        rw [show dictGet [("M", SVal.set [])] "M" = some (SVal.set []) from by decide] at h1
        simp at h1
    rw [FromStarlark]
    simp only [zeroFields, zeroVal]
    rw [walkStructDecode.eq_def]
    simp only [hdf]
    rw [walkStructDecode.eq_def]
